import Mathlib

/-!
Verification of the asset-tree XML codec of the RbxmxAI repository
(`src/utils/xmlBuilder.ts`, data model in `src/types.ts`).

The encoder `buildRbxmx` / `generateItem` / `escapeXml` and the decoder
`parseRbxmx` / `extractItem` are shallowly embedded below, keeping the
source's names.  JavaScript strings are modelled by `String`, the
`properties` bag (`Record<string, any>`) by an association list of tagged
values, JavaScript numbers (which only ever flow into the output through
their decimal textual form) by `Int`, and the ambient sources of freshness
(`Math.random`, `crypto.randomUUID`) by explicitly threaded streams and
counters.  The platform XML parser (`DOMParser`, not part of the
repository) is modelled from the spec as a conforming recursive-descent
XML parser over the character list of the input.
-/

namespace Rbxmx

/-- A value stored in the `properties` bag of an asset
(`Record<string, any>` in `src/types.ts`).  The encoder inspects the
JavaScript `typeof` of the value: `pstr`, `pnum` and `pbool` are the
`string` / `number` / `boolean` cases; `pother` stands for every other
kind of value (object, array, `null`, `undefined`, ...), which the encoder
ignores.  A numeric value is modelled by an integer: the only use the
codec makes of a number is its decimal textual form. -/
inductive PropVal where
  | pstr (s : String)
  | pnum (n : Int)
  | pbool (b : Bool)
  | pother
deriving DecidableEq

/-- The `RobloxAsset` interface of `src/types.ts`: `id`, `name`,
`className`, optional `source`, ordered `children`, optional `properties`
bag (insertion-ordered association list, mirroring `Object.entries`). -/
inductive RobloxAsset where
  | mk (id name className : String) (source : Option String)
       (children : List RobloxAsset)
       (properties : Option (List (String × PropVal)))

/-- Field accessor: `id`. -/
def RobloxAsset.id : RobloxAsset → String
  | .mk i _ _ _ _ _ => i

/-- Field accessor: `name`. -/
def RobloxAsset.name : RobloxAsset → String
  | .mk _ n _ _ _ _ => n

/-- Field accessor: `className`. -/
def RobloxAsset.className : RobloxAsset → String
  | .mk _ _ c _ _ _ => c

/-- Field accessor: `source`. -/
def RobloxAsset.source : RobloxAsset → Option String
  | .mk _ _ _ s _ _ => s

/-- Field accessor: `children`. -/
def RobloxAsset.children : RobloxAsset → List RobloxAsset
  | .mk _ _ _ _ k _ => k

/-- Field accessor: `properties`. -/
def RobloxAsset.properties : RobloxAsset → Option (List (String × PropVal))
  | .mk _ _ _ _ _ p => p

/-- Substring search on character lists, modelling the JavaScript
`String.prototype.includes` test used for script detection. -/
def subSearch (nd : List Char) : List Char → Bool
  | [] => nd.isEmpty
  | c :: cs => List.isPrefixOf nd (c :: cs) || subSearch nd cs

/-- `hay.includes(needle)` of JavaScript strings. -/
def strIncludes (hay needle : String) : Bool :=
  subSearch needle.data hay.data

/-- The script test of `generateItem`:
`item.className.includes('Script') || item.className === 'ModuleScript'`. -/
def isScriptClass (c : String) : Bool :=
  strIncludes c "Script" || c == "ModuleScript"

/-- Per-character XML escaping table of `escapeXml`
(`unsafe.replace(/[<>&"']/g, ...)`). -/
def escChar (c : Char) : List Char :=
  if c = '<' then "&lt;".data
  else if c = '>' then "&gt;".data
  else if c = '&' then "&amp;".data
  else if c = '"' then "&quot;".data
  else if c = '\'' then "&apos;".data
  else [c]

/-- `escapeXml` of `buildRbxmx`: the empty (falsy) string is returned
unchanged, every other string has the five markup-significant characters
replaced by their named entities. -/
def escapeXml (s : String) : String :=
  if s = "" then "" else ⟨s.data.flatMap escChar⟩

/-- `'  '.repeat(n)`. -/
def strRepeat (s : String) (n : Nat) : String :=
  String.join (List.replicate n s)

/-- One line of the extra-properties loop of `generateItem`
(`Object.entries(item.properties).forEach(...)`): strings are escaped into
a `<string>` element, numbers printed into a `<float>` element, booleans
into a `<bool>` element, and every other kind of value emits nothing. -/
def propLine (ind : String) : String × PropVal → String
  | (n, .pstr v) =>
      ind ++ "    <string name=\"" ++ n ++ "\">" ++ escapeXml v ++ "</string>\n"
  | (n, .pnum v) =>
      ind ++ "    <float name=\"" ++ n ++ "\">" ++ Int.repr v ++ "</float>\n"
  | (n, .pbool v) =>
      ind ++ "    <bool name=\"" ++ n ++ "\">" ++ (cond v "true" "false") ++ "</bool>\n"
  | (_, .pother) => ""

/-- The whole extra-properties section: absent bag (`item.properties`
falsy... an absent field) emits nothing; a present bag emits its lines in
entry order. -/
def propsSection (ind : String) : Option (List (String × PropVal)) → String
  | none => ""
  | some ps => String.join (ps.map (propLine ind))

/-- The `ProtectedString` source line of `generateItem`: emitted only when
`item.source` is truthy (present and nonempty) and the class is
script-like; the raw source is wrapped in a CDATA section, unescaped. -/
def sourceLine (ind : String) (className : String) : Option String → String
  | none => ""
  | some s =>
      if s ≠ "" ∧ isScriptClass className then
        ind ++ "    <ProtectedString name=\"Source\"><![CDATA[" ++ s
            ++ "]]></ProtectedString>\n"
      else ""

mutual

/-- `generateItem(item, depth)` of `buildRbxmx`.  The ambient
`Math.random()` stream is modelled by `rng : Nat → Nat`; the `k`-th call
of `Math.floor(Math.random() * 100000000)` returns `rng k % 100000000`
(a natural number below `10^8`), and the calls are numbered in execution
order by the threaded counter.  Returns the produced XML fragment and the
next counter value. -/
def generateItem (rng : Nat → Nat) : RobloxAsset → Nat → Nat → String × Nat
  | .mk _id nm cn src kids props, depth, k =>
      let ind := strRepeat "  " (depth + 1)
      let referent := "RBX" ++ Nat.repr (rng k % 100000000)
      let xml := ind ++ "<Item class=\"" ++ cn ++ "\" referent=\"" ++ referent ++ "\">\n"
      let xml := xml ++ ind ++ "  <Properties>\n"
      let xml := xml ++ ind ++ "    <string name=\"Name\">" ++ escapeXml nm ++ "</string>\n"
      let xml := xml ++ sourceLine ind cn src
      let xml := xml ++ propsSection ind props
      let xml := xml ++ ind ++ "  </Properties>\n"
      let (kidsXml, k') := generateChildren rng kids (depth + 1) (k + 1)
      (xml ++ kidsXml ++ ind ++ "</Item>\n", k')

/-- The `item.children.forEach(child => xml += generateItem(child, depth+1))`
loop, threading the random counter left to right. -/
def generateChildren (rng : Nat → Nat) : List RobloxAsset → Nat → Nat → String × Nat
  | [], _, k => ("", k)
  | c :: cs, depth, k =>
      let (s1, k1) := generateItem rng c depth k
      let (s2, k2) := generateChildren rng cs depth k1
      (s1 ++ s2, k2)

end

/-- `buildRbxmx(asset)`: fixed preamble (XML declaration, `roblox` root
element with its three namespace attributes and version, the two
`External` placeholders), the recursively generated root item, and the
closing tag. -/
def buildRbxmx (rng : Nat → Nat) (asset : RobloxAsset) : String :=
  "<?xml version=\"1.0\" encoding=\"UTF-8\"?>\n"
  ++ "<roblox xmlns:xmime=\"http://www.w3.org/2005/05/xmlmime\" xmlns:xsi=\"http://www.w3.org/2001/XMLSchema-instance\" xsi:noNamespaceSchemaLocation=\"http://www.roblox.com/roblox.xsd\" version=\"4\">\n"
  ++ "  <External>null</External>\n"
  ++ "  <External>nil</External>\n"
  ++ (generateItem rng asset 0 0).1
  ++ "</roblox>"

mutual

/-- A tree with every unsupported (`pother`) property entry removed, at
every depth.  Used to state that the encoder silently ignores such
entries. -/
def dropUnsupported : RobloxAsset → RobloxAsset
  | .mk i n c s kids props =>
      .mk i n c s (dropUnsupportedList kids)
        (props.map (·.filter (fun p => decide (p.2 ≠ PropVal.pother))))

/-- `dropUnsupported` mapped over a list of children. -/
def dropUnsupportedList : List RobloxAsset → List RobloxAsset
  | [] => []
  | t :: ts => dropUnsupported t :: dropUnsupportedList ts

end

/-! ## The document object model

`parseRbxmx` hands the input to the platform's `DOMParser` and then works
on DOM elements (`querySelector`, `getAttribute`, `children`,
`textContent`).  `XNode` is the DOM node type: an element with tag name,
attributes and ordered child nodes, or a text node (CDATA sections parse
into text nodes, as they do for `textContent` purposes in the DOM). -/

inductive XNode where
  | elem (tag : String) (attrs : List (String × String)) (children : List XNode)
  | text (s : String)

/-- Tag of an element node (text nodes have none; `""` stands in). -/
def XNode.tagOf : XNode → String
  | .elem t _ _ => t
  | .text _ => ""

/-- Attribute list of a node. -/
def XNode.attrsOf : XNode → List (String × String)
  | .elem _ a _ => a
  | .text _ => []

/-- Child-node list of a node. -/
def XNode.childrenOf : XNode → List XNode
  | .elem _ _ k => k
  | .text _ => []

/-- `getAttribute`: the value of the named attribute, `none` when absent
(DOM attributes are unique per element; the first binding wins). -/
def getAttr (nm : String) (attrs : List (String × String)) : Option String :=
  (attrs.find? (fun p => p.1 == nm)).map (·.2)

mutual

/-- `textContent`: concatenation of all descendant text, in document
order. -/
def textContent : XNode → String
  | .text s => s
  | .elem _ _ kids => textContentList kids

/-- `textContent` over a child list. -/
def textContentList : List XNode → String
  | [] => ""
  | x :: xs => textContent x ++ textContentList xs

end

/-- Whether a node is an element. -/
def XNode.isElemB : XNode → Bool
  | .elem _ _ _ => true
  | .text _ => false

/-- The subject test of the selector `PTAG > CTAG[name="AVAL"]`: `x` is
an element with tag `ctag` carrying attribute `name="aval"`, and the tag
of its parent element is `ptag`. -/
def matchPC (ptag ctag aval parentTag : String) (x : XNode) : Bool :=
  x.isElemB && parentTag == ptag && x.tagOf == ctag
    && (getAttr "name" x.attrsOf == some aval)

mutual

/-- `element.querySelector('PTAG > CTAG[name="AVAL"]')`: the first strict
descendant of the node, in document (preorder) order, that is an element
with tag `ctag` carrying attribute `name="aval"` whose parent element has
tag `ptag`.  (CSS matching imposes no constraint tying the parent to the
query root beyond the subject being a descendant.) -/
def qselPC (ptag ctag aval : String) : XNode → Option XNode
  | .text _ => none
  | .elem tg _ kids => qselPCList ptag ctag aval tg kids

/-- Preorder search of `qselPC` through a child list whose parent element
has tag `parentTag`. -/
def qselPCList (ptag ctag aval parentTag : String) : List XNode → Option XNode
  | [] => none
  | x :: xs =>
      if matchPC ptag ctag aval parentTag x then some x
      else
        match qselPC ptag ctag aval x with
        | some r => some r
        | none => qselPCList ptag ctag aval parentTag xs

end

mutual

/-- `document.querySelector("Item")`: the first element with tag `Item`
in document order, the root element included. -/
def qselItemIn : XNode → Option XNode
  | .text _ => none
  | .elem tg attrs kids =>
      if tg = "Item" then some (.elem tg attrs kids) else qselItemList kids

/-- Preorder search of `qselItemIn` through a child list. -/
def qselItemList : List XNode → Option XNode
  | [] => none
  | x :: xs =>
      match qselItemIn x with
      | some r => some r
      | none => qselItemList xs

end

/-- The `childItems[i].tagName === "Item"` test of the child loop of
`extractItem` (the DOM `children` collection holds only element
children, so a text node never passes). -/
def isItemElem : XNode → Bool
  | .elem tg _ _ => tg == "Item"
  | .text _ => false

mutual

/-- `extractItem(element)` of `parseRbxmx`.  `crypto.randomUUID()` is
modelled by a threaded counter producing the fresh identifiers
`uuid-0`, `uuid-1`, ... (their values are never compared by the codec).
Returns the extracted asset and the next counter value. -/
def extractItem : XNode → Nat → RobloxAsset × Nat
  | .text _, n =>
      -- `extractItem` is only ever applied to elements by `parseRbxmx`
      -- (the `Item` query returns elements); on a text node every lookup
      -- is empty and the fallbacks apply.
      (.mk ("uuid-" ++ Nat.repr n) "Unnamed" "Folder" none [] none, n + 1)
  | .elem tg attrs kids, n =>
      let className :=
        match getAttr "class" attrs with
        | some c => if c = "" then "Folder" else c
        | none => "Folder"
      let nameNode := qselPCList "Properties" "string" "Name" tg kids
      let sourceNode := qselPCList "Properties" "ProtectedString" "Source" tg kids
      let (ks, n1) := extractChildren kids n
      let nm :=
        match nameNode with
        | some nn => if textContent nn = "" then "Unnamed" else textContent nn
        | none => "Unnamed"
      let src :=
        match sourceNode with
        | some sn => if textContent sn = "" then none else some (textContent sn)
        | none => none
      (.mk ("uuid-" ++ Nat.repr n1) nm className src ks none, n1 + 1)

/-- The `for (let i = 0; i < childItems.length; i++)` loop of
`extractItem`: extract every child element whose tag is `Item`, in
document order. -/
def extractChildren : List XNode → Nat → List RobloxAsset × Nat
  | [], n => ([], n)
  | x :: xs, n =>
      if isItemElem x then
        let (a, n1) := extractItem x n
        let (rest, n2) := extractChildren xs n1
        (a :: rest, n2)
      else extractChildren xs n

end

mutual

/-- All nodes of an asset tree, the root included (preorder). -/
def assetNodes : RobloxAsset → List RobloxAsset
  | .mk i n c s kids p => .mk i n c s kids p :: assetNodesList kids

/-- `assetNodes` over a list of trees. -/
def assetNodesList : List RobloxAsset → List RobloxAsset
  | [] => []
  | t :: ts => assetNodes t ++ assetNodesList ts

end

/-! ## The platform XML parser

Modelled from the spec: `parseRbxmx` calls the platform's `DOMParser`
(`parser.parseFromString(xmlText, "text/xml")`), which is not part of the
repository; the spec requires "a conforming XML parser" whose parse-time
failure surfaces as a document containing no recognizable `Item` element.
The model below is a recursive-descent XML parser over the character list
of the input: optional XML declaration, elements with double-quoted
attributes, character data with the five predefined entity references,
and CDATA sections (which become text nodes).  Comments, DOCTYPE
declarations, processing instructions in content, numeric character
references and single-quoted attributes are not modelled — the codec
under verification never produces them.  A failed parse is `none`, which
`parseRbxmx` turns into the same error as a document without items, just
as a `DOMParser` error document contains no `Item`. -/

/-- XML white space. -/
def isWSChar (c : Char) : Bool :=
  c == ' ' || c == '\n' || c == '\t' || c == '\r'

/-- Drop leading white space. -/
def skipWS : List Char → List Char
  | [] => []
  | c :: cs => if isWSChar c then skipWS cs else c :: cs

/-- Characters usable in tag and attribute names (ASCII fragment of the
XML `Name` production; ample for any document the codec emits). -/
def isNameChar (c : Char) : Bool :=
  c.isAlphanum || c == '_' || c == ':' || c == '-' || c == '.'

/-- Longest prefix of name characters, and the remaining input. -/
def takeName : List Char → List Char × List Char
  | [] => ([], [])
  | c :: cs =>
      if isNameChar c then
        let p := takeName cs
        (c :: p.1, p.2)
      else ([], c :: cs)

mutual

/-- Character data up to the next `<`, decoding the five predefined
entity references; `none` on a malformed or unknown reference. -/
def takeText : List Char → Option (List Char × List Char)
  | [] => some ([], [])
  | c :: cs =>
      if c = '<' then some ([], c :: cs)
      else if c = '&' then takeTextEnt cs
      else (takeText cs).map (fun p => (c :: p.1, p.2))

/-- An entity reference (after the `&`) followed by more character
data. -/
def takeTextEnt : List Char → Option (List Char × List Char)
  | 'l' :: 't' :: ';' :: r => (takeText r).map (fun p => ('<' :: p.1, p.2))
  | 'g' :: 't' :: ';' :: r => (takeText r).map (fun p => ('>' :: p.1, p.2))
  | 'a' :: 'm' :: 'p' :: ';' :: r => (takeText r).map (fun p => ('&' :: p.1, p.2))
  | 'q' :: 'u' :: 'o' :: 't' :: ';' :: r => (takeText r).map (fun p => ('"' :: p.1, p.2))
  | 'a' :: 'p' :: 'o' :: 's' :: ';' :: r => (takeText r).map (fun p => ('\'' :: p.1, p.2))
  | _ => none

end

mutual

/-- A double-quoted attribute value up to the closing `"` (not consumed),
decoding entity references; a raw `<` is forbidden in attribute values. -/
def takeAttValue : List Char → Option (List Char × List Char)
  | [] => none
  | c :: cs =>
      if c = '"' then some ([], c :: cs)
      else if c = '<' then none
      else if c = '&' then takeAttValueEnt cs
      else (takeAttValue cs).map (fun p => (c :: p.1, p.2))

/-- An entity reference (after the `&`) followed by more attribute-value
data. -/
def takeAttValueEnt : List Char → Option (List Char × List Char)
  | 'l' :: 't' :: ';' :: r => (takeAttValue r).map (fun p => ('<' :: p.1, p.2))
  | 'g' :: 't' :: ';' :: r => (takeAttValue r).map (fun p => ('>' :: p.1, p.2))
  | 'a' :: 'm' :: 'p' :: ';' :: r => (takeAttValue r).map (fun p => ('&' :: p.1, p.2))
  | 'q' :: 'u' :: 'o' :: 't' :: ';' :: r => (takeAttValue r).map (fun p => ('"' :: p.1, p.2))
  | 'a' :: 'p' :: 'o' :: 's' :: ';' :: r => (takeAttValue r).map (fun p => ('\'' :: p.1, p.2))
  | _ => none

end

/-- Whether a list starts with the given character. -/
def hd1 : List Char → Char → Bool
  | [], _ => false
  | x :: _, a => x == a

/-- Whether a list starts with the two given characters. -/
def hd2 : List Char → Char → Char → Bool
  | x :: y :: _, a, b => x == a && y == b
  | _, _, _ => false

/-- CDATA content up to the first occurrence of the terminator `]]>`
(consumed); `none` when the input ends first. -/
def takeCData : List Char → Option (List Char × List Char)
  | [] => none
  | c :: cs =>
      if c = ']' ∧ hd2 cs ']' '>' then some ([], cs.tail.tail)
      else (takeCData cs).map (fun p => (c :: p.1, p.2))

/-- Skip to just past the closing `?>` of the XML declaration. -/
def scanPIEnd : List Char → Option (List Char)
  | [] => none
  | c :: cs =>
      if c = '?' ∧ hd1 cs '>' then some cs.tail
      else scanPIEnd cs

/-- One attribute: `name = "value"` (white space allowed around `=`). -/
def takeOneAttr (cs : List Char) : Option ((String × String) × List Char) :=
  match takeName cs with
  | ([], _) => none
  | (nm, r1) =>
      match skipWS r1 with
      | '=' :: r2 =>
          match skipWS r2 with
          | '"' :: r3 =>
              match takeAttValue r3 with
              | some (v, '"' :: r4) => some ((⟨nm⟩, ⟨v⟩), r4)
              | _ => none
          | _ => none
      | _ => none

/-- The attribute list of a start tag, up to (excluding) `>` or `/`. -/
def takeAttrs : Nat → List Char → Option (List (String × String) × List Char)
  | 0, _ => none
  | f + 1, cs =>
      match skipWS cs with
      | [] => none
      | c :: r =>
          if c = '>' ∨ c = '/' then some ([], c :: r)
          else
            match takeOneAttr (c :: r) with
            | some (a, r2) => (takeAttrs f r2).map (fun p => (a :: p.1, p.2))
            | none => none

mutual

/-- One element: start tag, attributes, then either `/>` or content
followed by the matching end tag.  The fuel decreases at each nesting
step; the entry point supplies more fuel than any input can consume. -/
def parseElem : Nat → List Char → Option (XNode × List Char)
  | 0, _ => none
  | f + 1, cs =>
      match cs with
      | '<' :: cs1 =>
          match takeName cs1 with
          | ([], _) => none
          | (nm, r1) =>
              match takeAttrs (r1.length + 1) r1 with
              | some (attrs, r2) =>
                  match r2 with
                  | '/' :: '>' :: r3 => some (.elem ⟨nm⟩ attrs [], r3)
                  | '>' :: r3 =>
                      match parseContent f r3 with
                      | some (kids, r4) =>
                          match r4 with
                          | '<' :: '/' :: r5 =>
                              match takeName r5 with
                              | (nm2, r6) =>
                                  if nm2 = nm then
                                    match skipWS r6 with
                                    | '>' :: r7 => some (.elem ⟨nm⟩ attrs kids, r7)
                                    | _ => none
                                  else none
                          | _ => none
                      | none => none
                  | _ => none
              | none => none
      | _ => none

/-- Element content: a sequence of text runs, CDATA sections and child
elements, stopping (without consuming) at a closing tag. -/
def parseContent : Nat → List Char → Option (List XNode × List Char)
  | 0, _ => none
  | f + 1, cs =>
      match cs with
      | [] => none
      | c :: cs1 =>
          if c = '<' then
            if hd1 cs1 '/' then some ([], c :: cs1)
            else if List.isPrefixOf "![CDATA[".data cs1 then
              match takeCData (cs1.drop 8) with
              | some (txt, r2) =>
                  match parseContent f r2 with
                  | some (ns, r3) => some (.text ⟨txt⟩ :: ns, r3)
                  | none => none
              | none => none
            else if hd1 cs1 '!' then none
            else if hd1 cs1 '?' then none
            else
              match parseElem f (c :: cs1) with
              | some (nd, r2) =>
                  match parseContent f r2 with
                  | some (ns, r3) => some (nd :: ns, r3)
                  | none => none
              | none => none
          else
            match takeText (c :: cs1) with
            | some (txt, r2) =>
                match parseContent f r2 with
                | some (ns, r3) => some (.text ⟨txt⟩ :: ns, r3)
                | none => none
            | none => none

end

/-- A whole document: optional XML declaration, optional white space, one
root element, trailing white space only. -/
def parseDoc (cs : List Char) : Option XNode :=
  let afterProlog :=
    match cs with
    | '<' :: '?' :: r => scanPIEnd r
    | _ => some cs
  match afterProlog with
  | none => none
  | some cs2 =>
      match parseElem (cs.length + 1) (skipWS cs2) with
      | some (root, r3) => if (skipWS r3).isEmpty then some root else none
      | none => none

/-- The model of `parser.parseFromString(xmlText, "text/xml")`: the root
element of the document, or `none` on a well-formedness failure. -/
def parseXmlDoc (s : String) : Option XNode :=
  parseDoc s.data

/-- The message of the single structural error thrown by `parseRbxmx`. -/
def structuralErrMsg : String := "Arquivo XML inválido ou sem itens Roblox."

/-- `parseRbxmx(xmlText)`: parse the document, locate the first `Item`
element, and extract it; when the parse fails (a `DOMParser` error
document contains no `Item`) or no `Item` exists, throw the structural
error.  The `crypto.randomUUID` counter starts at `0` for each call. -/
def parseRbxmx (xmlText : String) : Except String RobloxAsset :=
  match parseXmlDoc xmlText with
  | none => .error structuralErrMsg
  | some doc =>
      match qselItemIn doc with
      | some rootItem => .ok (extractItem rootItem 0).1
      | none => .error structuralErrMsg

/-! ## Scanner lemmas

Chunk lemmas describing how each scanner consumes a known prefix of the
input and leaves the suffix intact. -/

/-- `escapeXml` at the character-list level. -/
def escL (l : List Char) : List Char := l.flatMap escChar

/-- Characters legal inside a double-quoted attribute value without
escaping. -/
def safeAttrL (l : List Char) : Prop :=
  ∀ c ∈ l, c ≠ '"' ∧ c ≠ '<' ∧ c ≠ '&'

/-- Whether a character list contains the CDATA terminator `]]>` as a
contiguous subsequence. -/
def hasCDataTerm : List Char → Bool
  | [] => false
  | c :: cs =>
      if c = ']' ∧ hd2 cs ']' '>' then true else hasCDataTerm cs

/-- The serialized form of an attribute list inside a start tag: a space,
the name, `="`, the value, `"`, for each attribute. -/
def renderAttrs : List (String × String) → List Char
  | [] => []
  | (n, v) :: as => ' ' :: (n.data ++ '=' :: '"' :: (v.data ++ '"' :: renderAttrs as))

/-- Attribute lists the serializer produces: nonempty names of name
characters, attribute-safe values. -/
def wfAttrs (as : List (String × String)) : Prop :=
  ∀ p ∈ as, p.1 ≠ "" ∧ (∀ c ∈ p.1.data, isNameChar c = true) ∧ safeAttrL p.2.data

/-! ## The expected document object model of an encoded tree

`encDom` is the DOM that a conforming parser recovers from the output of
`generateItem`; it is a proof artifact, linked to the encoder by the
parsing lemmas below (whitespace runs between elements become text
nodes). -/

/-- The indentation string of a node at depth `d`
(`'  '.repeat(depth + 1)`). -/
def indD (d : Nat) : String := strRepeat "  " (d + 1)

/-- The separator text node `"\n"` followed by `2 * (k + 1)` spaces. -/
def sepL (k : Nat) : XNode := .text ("\n" ++ indD k)

/-- Text children of a leaf property element: empty text emits no text
node. -/
def txtOpt (s : String) : List XNode := if s = "" then [] else [.text s]

mutual

/-- Number of nodes of an asset tree (= number of `Math.random` draws the
encoder makes for it). -/
def numNodes : RobloxAsset → Nat
  | .mk _ _ _ _ kids _ => 1 + numNodesList kids

/-- `numNodes` over a list of trees. -/
def numNodesList : List RobloxAsset → Nat
  | [] => 0
  | c :: cs => numNodes c + numNodesList cs

end

/-- DOM chunk of the emitted source line, when the encoder emits one. -/
def srcDoms (d : Nat) (cn : String) : Option String → List XNode
  | none => []
  | some s =>
      if s ≠ "" ∧ isScriptClass cn then
        [sepL (d + 2), .elem "ProtectedString" [("name", "Source")] [.text s]]
      else []

/-- DOM chunk of one extra-property line. -/
def propDom (d : Nat) : String × PropVal → List XNode
  | (n, .pstr v) => [sepL (d + 2), .elem "string" [("name", n)] (txtOpt v)]
  | (n, .pnum v) => [sepL (d + 2), .elem "float" [("name", n)] [.text (Int.repr v)]]
  | (n, .pbool v) => [sepL (d + 2), .elem "bool" [("name", n)] [.text (cond v "true" "false")]]
  | (_, .pother) => []

/-- DOM chunks of the extra-properties section. -/
def propsDoms (d : Nat) : Option (List (String × PropVal)) → List XNode
  | none => []
  | some ps => ps.flatMap (propDom d)

mutual

/-- The DOM of the serialized item of `t` at depth `d` with random
counter `k`. -/
def encDom (rng : Nat → Nat) : RobloxAsset → Nat → Nat → XNode
  | .mk _ nm cn src kids props, d, k =>
      .elem "Item" [("class", cn), ("referent", "RBX" ++ Nat.repr (rng k % 100000000))]
        (sepL (d + 1)
          :: .elem "Properties" []
               (sepL (d + 2)
                 :: .elem "string" [("name", "Name")] (txtOpt nm)
                 :: (srcDoms d cn src ++ propsDoms d props ++ [sepL (d + 1)]))
          :: (encDomKids rng kids d (k + 1) ++ [.text ("\n" ++ indD d)]))

/-- The DOM chunks of the serialized children of a node at depth `d`:
a separator text node and the child's item, for each child. -/
def encDomKids (rng : Nat → Nat) : List RobloxAsset → Nat → Nat → List XNode
  | [], _, _ => []
  | c :: cs, d, k =>
      sepL (d + 1) :: encDom rng c (d + 1) k :: encDomKids rng cs d (k + numNodes c)

end

/-- Attribute-position safety of a string interpolated без escaping:
none of `"` `<` `&` occur in it. -/
def safeAttrB (s : String) : Bool :=
  s.data.all (fun c => !(c == '"') && !(c == '<') && !(c == '&'))

mutual

/-- Trees whose encoding is well-formed XML and round-trips: every
`className` and every property name is attribute-safe (they are
interpolated into attribute position unescaped), and an emitted script
source contains no CDATA terminator. -/
def safeTree : RobloxAsset → Bool
  | .mk _ _ cn src kids props =>
      safeAttrB cn
      && (match src with
          | none => true
          | some s =>
              if s ≠ "" ∧ isScriptClass cn then !hasCDataTerm s.data else true)
      && (match props with
          | none => true
          | some ps => ps.all (fun p => safeAttrB p.1))
      && safeTreeList kids

/-- `safeTree` over a list of children. -/
def safeTreeList : List RobloxAsset → Bool
  | [] => true
  | t :: ts => safeTree t && safeTreeList ts

end

/-- Number of emitted leaf property lines (source line included). -/
def emittedLines (cn : String) (src : Option String)
    (props : Option (List (String × PropVal))) : Nat :=
  (match src with
   | none => 0
   | some s => if s ≠ "" ∧ isScriptClass cn then 1 else 0)
  + (match props with
     | none => 0
     | some ps => (ps.filter (fun p => decide (p.2 ≠ PropVal.pother))).length)

mutual

/-- Fuel budget sufficient for `parseElem` on the serialized item. -/
def needT : RobloxAsset → Nat
  | .mk _ _ cn src kids props =>
      16 + 6 * emittedLines cn src props + needTList kids

/-- Fuel budget for the serialized children sequence. -/
def needTList : List RobloxAsset → Nat
  | [] => 0
  | c :: cs => 4 + needT c + needTList cs

end

/-- The serialized item of a node without its leading indentation:
`generateItem` emits the indentation first and this body after it.  Not
part of the source translation — a decomposition device, linked to
`generateItem` by `genItem_data`. -/
def itemBody (rng : Nat → Nat) : RobloxAsset → Nat → Nat → String
  | .mk _ nm cn src kids props, depth, k =>
      let ind := strRepeat "  " (depth + 1)
      "<Item class=\"" ++ cn ++ "\" referent=\""
        ++ ("RBX" ++ Nat.repr (rng k % 100000000)) ++ "\">\n"
      ++ (ind ++ "  <Properties>\n")
      ++ (ind ++ "    <string name=\"Name\">" ++ escapeXml nm ++ "</string>\n")
      ++ sourceLine ind cn src
      ++ propsSection ind props
      ++ (ind ++ "  </Properties>\n")
      ++ (generateChildren rng kids (depth + 1) (k + 1)).1
      ++ (ind ++ "</Item>\n")

/-- Text children produced by parsing a leaf body of raw characters
`v`. -/
def txtOptL (v : List Char) : List XNode :=
  if v = [] then [] else [.text ⟨v⟩]

/-- Number of emitted extra-property lines of a property bag. -/
def propCount : Option (List (String × PropVal)) → Nat
  | none => 0
  | some ps => (ps.filter (fun p => decide (p.2 ≠ PropVal.pother))).length

/-- The DOM of a whole serialized document: the `roblox` root with its
namespace attributes, the two `External` elements, and the item DOM. -/
def encRoot (rng : Nat → Nat) (t : RobloxAsset) : XNode :=
  .elem "roblox"
    [("xmlns:xmime", "http://www.w3.org/2005/05/xmlmime"),
     ("xmlns:xsi", "http://www.w3.org/2001/XMLSchema-instance"),
     ("xsi:noNamespaceSchemaLocation", "http://www.roblox.com/roblox.xsd"),
     ("version", "4")]
    [.text ("\n" ++ indD 0), .elem "External" [] [.text "null"],
     .text ("\n" ++ indD 0), .elem "External" [] [.text "nil"],
     .text ("\n" ++ indD 0), encDom rng t 0 0, .text "\n"]

mutual

/-- The round-trip guarantee of one decoded node against its source
node: the decoded name is the source name with the `Unnamed` fallback
for an empty name, the decoded class is the source class with the
`Folder` fallback for an empty class, the decoded source equals the
source's `source` whenever the encoder emits a source line for it, and
the children correspond pairwise in order (so counts match at every
depth).  The fresh `id` and the unreconstructed `properties` are not
constrained. -/
def rtOK : RobloxAsset → RobloxAsset → Bool
  | .mk _ nm cn src kids _, .mk _ nm' cn' src' kids' _ =>
      (nm' == if nm = "" then "Unnamed" else nm)
      && (cn' == if cn = "" then "Folder" else cn)
      && (match src with
          | some s => if s ≠ "" ∧ isScriptClass cn then src' == some s else true
          | none => true)
      && rtOKList kids kids'

/-- `rtOK` pairwise over child lists (equal length required). -/
def rtOKList : List RobloxAsset → List RobloxAsset → Bool
  | [], [] => true
  | c :: cs, u :: us => rtOK c u && rtOKList cs us
  | _, _ => false

end

mutual

/-- The referent attribute values of all `Item` elements of a DOM, in
document order. -/
def itemRefs : XNode → List String
  | .text _ => []
  | .elem tg attrs kids =>
      (if tg = "Item" then
        match getAttr "referent" attrs with
        | some r => [r]
        | none => []
       else []) ++ itemRefsList kids

/-- `itemRefs` over a child list. -/
def itemRefsList : List XNode → List String
  | [] => []
  | x :: xs => itemRefs x ++ itemRefsList xs

end

/-- A flat tree with `n + 1` nodes: a `Folder` root with `n` identical
`Folder` children. -/
def flatTree (n : Nat) : RobloxAsset :=
  .mk "root" "Root" "Folder" none
    (List.replicate n (.mk "c" "Child" "Folder" none [] none)) none

/-- Children-membership induction principle for the nested inductive
`RobloxAsset`. -/
theorem RobloxAsset.inductionOn {P : RobloxAsset → Prop}
    (h : ∀ i n c s kids props, (∀ t ∈ kids, P t) → P (.mk i n c s kids props)) :
    ∀ t, P t
  | .mk i n c s kids props =>
      h i n c s kids props (fun t ht =>
        have : sizeOf t < sizeOf (RobloxAsset.mk i n c s kids props) := by
          have := List.sizeOf_lt_of_mem ht
          simp only [RobloxAsset.mk.sizeOf_spec]
          omega
        RobloxAsset.inductionOn h t)
termination_by t => sizeOf t

/-- The unconditional form of `escapeXml`: the empty-string guard of the
source is redundant. -/
theorem escapeXml_eq (s : String) : escapeXml s = ⟨s.data.flatMap escChar⟩ := by
  unfold escapeXml
  split
  · subst s; rfl
  · rfl

theorem strFoldl_append (l : List String) :
    ∀ acc : String, l.foldl (fun r s => r ++ s) acc
      = acc ++ l.foldl (fun r s => r ++ s) "" := by
  induction l with
  | nil => intro acc; simp [List.foldl]
  | cons b l ih =>
      intro acc
      simp only [List.foldl]
      rw [ih (acc ++ b), ih ("" ++ b)]
      simp [String.append_assoc]

theorem strJoin_cons (a : String) (l : List String) :
    String.join (a :: l) = a ++ String.join l := by
  simp only [String.join, List.foldl]
  rw [strFoldl_append l ("" ++ a)]
  simp

theorem propsSection_drop (ind : String) (props : Option (List (String × PropVal))) :
    propsSection ind (props.map (·.filter (fun p => decide (p.2 ≠ PropVal.pother))))
      = propsSection ind props := by
  cases props with
  | none => rfl
  | some ps =>
      simp only [Option.map_some, propsSection]
      induction ps with
      | nil => rfl
      | cons p ps ih =>
          cases p with
          | mk n v =>
              cases v <;>
                simp_all [List.filter, propLine, List.map, strJoin_cons]

theorem generateItem_drop (rng : Nat → Nat) :
    ∀ t depth k, generateItem rng (dropUnsupported t) depth k = generateItem rng t depth k := by
  intro t
  induction t using RobloxAsset.inductionOn with
  | h i n c s kids props ih =>
      intro depth k
      simp only [dropUnsupported, generateItem, propsSection_drop]
      have hkids : ∀ d k', generateChildren rng (dropUnsupportedList kids) d k'
          = generateChildren rng kids d k' := by
        clear depth k
        induction kids with
        | nil => intro d k'; rfl
        | cons t ts ihts =>
            intro d k'
            simp only [dropUnsupportedList, generateChildren,
              ih t (List.mem_cons_self t ts),
              ihts (fun u hu => ih u (List.mem_cons_of_mem t hu))]
      rw [hkids]

theorem strData_append (a b : String) : (a ++ b).data = a.data ++ b.data := rfl

/-- Claim C4: every text-typed value the encoder emits goes through
`escapeXml`, which maps each of the five characters `< > & " '` to its
standard named entity, leaves every other character unchanged
(characterised here by the action on singletons together with
homomorphism over concatenation), and sends the empty (or missing, i.e.
falsy) string to the empty string without error. -/
theorem claim_C4 (s t : String) (c : Char)
    (hc : c ∉ ['<', '>', '&', '"', '\'']) :
    escapeXml "" = "" ∧
    escapeXml (s ++ t) = escapeXml s ++ escapeXml t ∧
    escapeXml (String.singleton c) = String.singleton c ∧
    escapeXml "<" = "&lt;" ∧ escapeXml ">" = "&gt;" ∧ escapeXml "&" = "&amp;" ∧
    escapeXml "\"" = "&quot;" ∧ escapeXml "'" = "&apos;" := by
  simp only [List.mem_cons, List.mem_singleton, not_or] at hc
  obtain ⟨h1, h2, h3, h4, h5⟩ := hc
  refine ⟨rfl, ?_, ?_, rfl, rfl, rfl, rfl, rfl⟩
  · rw [escapeXml_eq, escapeXml_eq, escapeXml_eq]
    apply String.ext
    simp [strData_append, List.flatMap_append]
  · rw [escapeXml_eq]
    apply String.ext
    show ([c].flatMap escChar) = [c]
    simp [escChar, h1, h2, h3, h4, h5]

/-- Witness for C4 at a concrete non-special character. -/
theorem claim_C4_witness :
    'a' ∉ ['<', '>', '&', '"', '\''] ∧
      (escapeXml "" = "" ∧
       escapeXml ("x" ++ "y") = escapeXml "x" ++ escapeXml "y" ∧
       escapeXml (String.singleton 'a') = String.singleton 'a' ∧
       escapeXml "<" = "&lt;" ∧ escapeXml ">" = "&gt;" ∧ escapeXml "&" = "&amp;" ∧
       escapeXml "\"" = "&quot;" ∧ escapeXml "'" = "&apos;") :=
  ⟨by decide, claim_C4 "x" "y" 'a' (by decide)⟩

/-- Claim C7: the encoder is a total function of the asset tree (it is
defined for every `RobloxAsset`, with no failure path), and a property
whose value kind is not text, numeric or boolean contributes nothing to
the output: encoding a tree is identical to encoding the same tree with
every unsupported property entry removed. -/
theorem claim_C7 (rng : Nat → Nat) (t : RobloxAsset) :
    buildRbxmx rng (dropUnsupported t) = buildRbxmx rng t := by
  unfold buildRbxmx
  rw [generateItem_drop]

/-- Children-membership induction principle for `XNode`. -/
theorem XNode.memInduction {P : XNode → Prop}
    (helem : ∀ tg attrs kids, (∀ x ∈ kids, P x) → P (.elem tg attrs kids))
    (htext : ∀ s, P (.text s)) :
    ∀ x, P x
  | .text s => htext s
  | .elem tg attrs kids =>
      helem tg attrs kids (fun x hx =>
        have : sizeOf x < sizeOf (XNode.elem tg attrs kids) := by
          have := List.sizeOf_lt_of_mem hx
          simp only [XNode.elem.sizeOf_spec]
          omega
        XNode.memInduction helem htext x)
termination_by x => sizeOf x

/-- Every extracted asset is a record with `properties` unset and a
`source` that is never the empty string. -/
theorem extractItem_shape (e : XNode) (n : Nat) :
    ∃ i nm cn src ks, (extractItem e n).1 = .mk i nm cn src ks none ∧ src ≠ some "" := by
  cases e with
  | text s => exact ⟨_, _, _, _, _, rfl, by simp⟩
  | elem tg attrs kids =>
      cases hE : extractChildren kids n with
      | mk ks n1 =>
          simp only [extractItem, hE]
          refine ⟨_, _, _, _, _, rfl, ?_⟩
          cases qselPCList "Properties" "ProtectedString" "Source" tg kids with
          | none => simp
          | some sn =>
              by_cases ht : textContent sn = "" <;> simp [ht]

/-- Every node of a decoded tree is itself the result of `extractItem`
on some DOM node and counter. -/
theorem decoded_node_eq_extract :
    ∀ e : XNode, ∀ n : Nat, ∀ u ∈ assetNodes (extractItem e n).1,
      ∃ e' m, u = (extractItem e' m).1 := by
  have hlist : ∀ xs : List XNode,
      (∀ x ∈ xs, ∀ n : Nat, ∀ u ∈ assetNodes (extractItem x n).1,
        ∃ e' m, u = (extractItem e' m).1) →
      ∀ n : Nat, ∀ u ∈ assetNodesList (extractChildren xs n).1,
        ∃ e' m, u = (extractItem e' m).1 := by
    intro xs
    induction xs with
    | nil => intro _ n u hu; simp [extractChildren, assetNodesList] at hu
    | cons x xs ih =>
        intro hx n u hu
        by_cases hitem : isItemElem x = true
        · rw [show extractChildren (x :: xs) n
              = ((extractItem x n).1 :: (extractChildren xs (extractItem x n).2).1,
                  (extractChildren xs (extractItem x n).2).2) by
            simp [extractChildren, hitem]] at hu
          simp only [assetNodesList, List.mem_append] at hu
          rcases hu with hu | hu
          · exact hx x (List.mem_cons_self x xs) n u hu
          · exact ih (fun y hy => hx y (List.mem_cons_of_mem x hy)) _ u hu
        · rw [show extractChildren (x :: xs) n = extractChildren xs n by
            simp [extractChildren, hitem]] at hu
          exact ih (fun y hy => hx y (List.mem_cons_of_mem x hy)) n u hu
  intro e
  induction e using XNode.memInduction with
  | htext s =>
      intro n u hu
      simp only [extractItem, assetNodes, assetNodesList] at hu
      rcases List.mem_cons.mp hu with h | h
      · exact ⟨.text s, n, by rw [h]; rfl⟩
      · simp at h
  | helem tg attrs kids ihk =>
      intro n u hu
      cases hE : extractChildren kids n with
      | mk ks n1 =>
          simp only [extractItem, hE] at hu
          simp only [assetNodes] at hu
          rcases List.mem_cons.mp hu with h | h
          · exact ⟨.elem tg attrs kids, n, by rw [h]; simp [extractItem, hE]⟩
          · have hks : (extractChildren kids n).1 = ks := by rw [hE]
            exact hlist kids ihk n u (by rw [hks]; exact h)

/-- Claim C8: for every input DOM and counter, every node of the tree
returned by the decoder has no reconstructed `properties` map — only
`id`, `name`, `className`, `source` and `children` are populated, so
typed custom properties are never round-tripped back. -/
theorem claim_C8 (e : XNode) (n : Nat) (u : RobloxAsset)
    (hu : u ∈ assetNodes (extractItem e n).1) : u.properties = none := by
  rcases decoded_node_eq_extract e n u hu with ⟨e', m, rfl⟩
  rcases extractItem_shape e' m with ⟨i, nm, cn, src, ks, hEq, _⟩
  rw [hEq]
  rfl

/-- Witness for C8 at a concrete DOM tree. -/
theorem claim_C8_witness :
    ((extractItem (.elem "Item" [] []) 0).1
        ∈ assetNodes (extractItem (.elem "Item" [] []) 0).1) ∧
    ((extractItem (.elem "Item" [] []) 0).1).properties = none :=
  have hmem : (extractItem (.elem "Item" [] []) 0).1
      ∈ assetNodes (extractItem (.elem "Item" [] []) 0).1 :=
    List.mem_cons_self _ _
  ⟨hmem, claim_C8 (.elem "Item" [] []) 0 _ hmem⟩

/-- Claim C10: no node returned by the decoder carries an empty-string
`source` (an emptied `ProtectedString` becomes an unset `source`), and in
particular an element whose `Source` query hits a node with empty text
content decodes with `source` unset. -/
theorem claim_C10 (e : XNode) (n : Nat) (u : RobloxAsset)
    (hu : u ∈ assetNodes (extractItem e n).1) :
    u.source ≠ some "" ∧
    (∀ sn, qselPC "Properties" "ProtectedString" "Source" e = some sn →
      textContent sn = "" → (extractItem e n).1.source = none) := by
  constructor
  · rcases decoded_node_eq_extract e n u hu with ⟨e', m, rfl⟩
    rcases extractItem_shape e' m with ⟨i, nm, cn, src, ks, hEq, hsrc⟩
    rw [hEq]
    exact hsrc
  · intro sn hq ht
    cases e with
    | text s => simp [qselPC] at hq
    | elem tg attrs kids =>
        cases hE : extractChildren kids n with
        | mk ks n1 =>
            simp only [qselPC] at hq
            simp only [extractItem, hE, hq, ht, RobloxAsset.source, if_pos]

/-- Witness for C10 at a concrete DOM tree with an empty `Source`. -/
theorem claim_C10_witness :
    ((extractItem (.elem "Item" []
        [.elem "Properties" [] [.elem "ProtectedString" [("name", "Source")] []]]) 0).1
        ∈ assetNodes (extractItem (.elem "Item" []
        [.elem "Properties" [] [.elem "ProtectedString" [("name", "Source")] []]]) 0).1) ∧
    ((extractItem (.elem "Item" []
        [.elem "Properties" [] [.elem "ProtectedString" [("name", "Source")] []]]) 0).1.source
        ≠ some "") :=
  have hmem : (extractItem (.elem "Item" []
      [.elem "Properties" [] [.elem "ProtectedString" [("name", "Source")] []]]) 0).1
      ∈ assetNodes (extractItem (.elem "Item" []
      [.elem "Properties" [] [.elem "ProtectedString" [("name", "Source")] []]]) 0).1 :=
    List.mem_cons_self _ _
  ⟨hmem, (claim_C10 _ 0 _ hmem).1⟩

/-- Counterexample to claim C6: the decoder reads a `Source` property on
a node whose class (`Folder`) is not script-like — decode-side reading is
not restricted to script-like classNames. -/
theorem claim_C6_counterexample :
    (extractItem (.elem "Item" [("class", "Folder")]
        [.elem "Properties" [] [.elem "ProtectedString" [("name", "Source")] [.text "x"]]])
        0).1.source = some "x" ∧
    isScriptClass "Folder" = false :=
  ⟨rfl, rfl⟩

/-- Claim C6 (amended): the encoder emits a source element only when the
node's class is script-like, and a node with no `source` (including a
script-like node) emits no source element; the decoder, however, reads
the `Source` property regardless of the class attribute — the decoded
`source` is invariant under changing it. -/
theorem claim_C6_amended (ind cnAny cn s : String)
    (hcn : isScriptClass cn = false)
    (tg c1 c2 : String) (a : List (String × String)) (kids : List XNode) (n : Nat) :
    sourceLine ind cnAny none = "" ∧
    sourceLine ind cn (some s) = "" ∧
    (extractItem (.elem tg (("class", c1) :: a) kids) n).1.source
      = (extractItem (.elem tg (("class", c2) :: a) kids) n).1.source := by
  refine ⟨rfl, ?_, rfl⟩
  simp [sourceLine, hcn]

/-- Witness for C6 at concrete inputs. -/
theorem claim_C6_witness :
    isScriptClass "Part" = false ∧
    (sourceLine "  " "Script" none = "" ∧
     sourceLine "  " "Part" (some "code") = "" ∧
     (extractItem (.elem "Item" [("class", "Folder")] []) 0).1.source
       = (extractItem (.elem "Item" [("class", "Script")] []) 0).1.source) :=
  ⟨by decide, claim_C6_amended "  " "Script" "Part" "code" (by decide)
      "Item" "Folder" "Script" [] [] 0⟩

/-- Counterexample to claim C9: an Item whose `class` attribute is
present but empty does not decode to the attribute's value (the empty
string) — the fallback `Folder` is used although the attribute is not
absent. -/
theorem claim_C9_counterexample :
    getAttr "class" (XNode.attrsOf (.elem "Item" [("class", "")] [])) = some "" ∧
    (extractItem (.elem "Item" [("class", "")] []) 0).1.className = "Folder" :=
  ⟨rfl, rfl⟩

/-- Claim C9 (amended): for every decoded element, `className` is the
value of the `class` attribute when that value is present and nonempty,
and the default `Folder` when the attribute is absent or empty; `name` is
the text content of the nested `Name` query when nonempty, and the
default `Unnamed` when the query fails or its text content is empty. -/
theorem claim_C9_amended (e : XNode) (n : Nat) :
    ((getAttr "class" e.attrsOf = none ∨ getAttr "class" e.attrsOf = some "") →
        (extractItem e n).1.className = "Folder") ∧
    (∀ c, getAttr "class" e.attrsOf = some c → c ≠ "" →
        (extractItem e n).1.className = c) ∧
    (qselPC "Properties" "string" "Name" e = none →
        (extractItem e n).1.name = "Unnamed") ∧
    (∀ nn, qselPC "Properties" "string" "Name" e = some nn → textContent nn = "" →
        (extractItem e n).1.name = "Unnamed") ∧
    (∀ nn, qselPC "Properties" "string" "Name" e = some nn → textContent nn ≠ "" →
        (extractItem e n).1.name = textContent nn) := by
  cases e with
  | text s =>
      refine ⟨fun _ => rfl, ?_, fun _ => rfl, ?_, ?_⟩ <;>
        (intro nn h; simp [XNode.attrsOf, getAttr, qselPC] at h)
  | elem tg attrs kids =>
      cases hE : extractChildren kids n with
      | mk ks n1 =>
          refine ⟨?_, ?_, ?_, ?_, ?_⟩
          · rintro (h | h) <;>
              simp [extractItem, hE, XNode.attrsOf, RobloxAsset.className, h] at *
          · intro c h hc
            simp only [XNode.attrsOf] at h
            simp [extractItem, hE, RobloxAsset.className, h, hc]
          · intro h
            simp only [qselPC] at h
            simp [extractItem, hE, RobloxAsset.name, h]
          · intro nn h ht
            simp only [qselPC] at h
            simp [extractItem, hE, RobloxAsset.name, h, ht]
          · intro nn h ht
            simp only [qselPC] at h
            simp [extractItem, hE, RobloxAsset.name, h, ht]

/-- Witness for C9 at a concrete element with a nonempty class attribute
and a nonempty nested Name. -/
theorem claim_C9_witness :
    (extractItem (.elem "Item" [("class", "Part")]
        [.elem "Properties" [] [.elem "string" [("name", "Name")] [.text "Box"]]]) 0).1.className
      = "Part" ∧
    (extractItem (.elem "Item" [("class", "Part")]
        [.elem "Properties" [] [.elem "string" [("name", "Name")] [.text "Box"]]]) 0).1.name
      = "Box" :=
  ⟨(claim_C9_amended (.elem "Item" [("class", "Part")]
      [.elem "Properties" [] [.elem "string" [("name", "Name")] [.text "Box"]]]) 0).2.1
      "Part" rfl (by decide),
   (claim_C9_amended (.elem "Item" [("class", "Part")]
      [.elem "Properties" [] [.elem "string" [("name", "Name")] [.text "Box"]]]) 0).2.2.2.2
      (.elem "string" [("name", "Name")] [.text "Box"]) rfl (by decide)⟩

/-- Claim C3: for every input that is not parseable XML, and for every
input that parses but contains no `Item` element, decode fails with the
structural error — no partial tree is returned (the result is the error,
not an `ok`). -/
theorem claim_C3 (s : String)
    (h : parseXmlDoc s = none ∨
      ∃ doc, parseXmlDoc s = some doc ∧ qselItemIn doc = none) :
    parseRbxmx s = .error structuralErrMsg := by
  rcases h with h | ⟨doc, hdoc, hitem⟩
  · simp [parseRbxmx, h]
  · simp [parseRbxmx, hdoc, hitem]

/-- Witness for C3 at the two inputs named by the spec. -/
theorem claim_C3_witness :
    parseRbxmx "not xml" = .error structuralErrMsg ∧
    parseRbxmx "<foo></foo>" = .error structuralErrMsg :=
  ⟨claim_C3 "not xml" (Or.inl rfl),
   claim_C3 "<foo></foo>" (Or.inr ⟨.elem "foo" [] [], rfl, rfl⟩)⟩

theorem escapeXml_data (s : String) : (escapeXml s).data = escL s.data := by
  rw [escapeXml_eq]; rfl

theorem digitChar_isDigit : ∀ m, m < 10 → (Nat.digitChar m).isDigit = true := by
  decide

theorem toDigitsCore_digits (f : Nat) :
    ∀ n acc, (∀ c ∈ acc, c.isDigit = true) →
      ∀ c ∈ Nat.toDigitsCore 10 f n acc, c.isDigit = true := by
  induction f with
  | zero => intro n acc hacc c hc; exact hacc c hc
  | succ f ih =>
      intro n acc hacc c hc
      rw [Nat.toDigitsCore] at hc
      by_cases hz : n / 10 = 0
      · simp only [hz, if_pos] at hc
        rcases List.mem_cons.mp hc with h | h
        · subst h; exact digitChar_isDigit _ (Nat.mod_lt _ (by norm_num))
        · exact hacc c h
      · simp only [hz, if_neg, if_false] at hc
        refine ih (n / 10) (Nat.digitChar (n % 10) :: acc) ?_ c hc
        intro d hd
        rcases List.mem_cons.mp hd with h | h
        · subst h; exact digitChar_isDigit _ (Nat.mod_lt _ (by norm_num))
        · exact hacc d h

theorem natRepr_digits (n : Nat) : ∀ c ∈ (Nat.repr n).data, c.isDigit = true := by
  intro c hc
  exact toDigitsCore_digits (n + 1) n [] (by simp) c hc

theorem isDigit_safeAttr (c : Char) (h : c.isDigit = true) :
    c ≠ '"' ∧ c ≠ '<' ∧ c ≠ '&' := by
  refine ⟨?_, ?_, ?_⟩ <;> (rintro rfl; exact absurd h (by decide))

theorem referent_safeAttr (m : Nat) : safeAttrL ("RBX" ++ Nat.repr m).data := by
  intro c hc
  rw [strData_append] at hc
  rcases List.mem_append.mp hc with h | h
  · fin_cases h <;> exact ⟨by decide, by decide, by decide⟩
  · exact isDigit_safeAttr c (natRepr_digits m c h)

theorem escChar_no_lt (c c' : Char) (h : c' ∈ escChar c) : c' ≠ '<' := by
  unfold escChar at h
  split at h
  · fin_cases h <;> decide
  · split at h
    · fin_cases h <;> decide
    · split at h
      · fin_cases h <;> decide
      · split at h
        · fin_cases h <;> decide
        · split at h
          · fin_cases h <;> decide
          · rcases List.mem_singleton.mp h with rfl
            assumption

theorem takeName_append (nm : List Char) (h : ∀ c ∈ nm, isNameChar c = true)
    (c' : Char) (h' : isNameChar c' = false) (rest : List Char) :
    takeName (nm ++ c' :: rest) = (nm, c' :: rest) := by
  induction nm with
  | nil => simp [takeName, h']
  | cons c cs ih =>
      simp only [List.cons_append, takeName, h c (List.mem_cons_self c cs), if_pos,
        List.append_eq]
      rw [ih (fun d hd => h d (List.mem_cons_of_mem c hd))]

theorem takeText_append_plain (t : List Char) (ht : ∀ c ∈ t, c ≠ '<' ∧ c ≠ '&')
    (rest : List Char) :
    takeText (t ++ '<' :: rest) = some (t, '<' :: rest) := by
  induction t with
  | nil => simp [takeText]
  | cons c cs ih =>
      rcases ht c (List.mem_cons_self c cs) with ⟨h1, h2⟩
      simp only [List.cons_append, takeText, h1, h2, if_false, if_neg, List.append_eq]
      rw [ih (fun d hd => ht d (List.mem_cons_of_mem c hd))]
      rfl

theorem takeText_escL (s : List Char) (rest : List Char) :
    takeText (escL s ++ '<' :: rest) = some (s, '<' :: rest) := by
  induction s with
  | nil => simp [escL, takeText]
  | cons c cs ih =>
      have hesc : escL (c :: cs) = escChar c ++ escL cs := by
        simp [escL]
      rw [hesc]
      by_cases h1 : c = '<'
      · subst h1; simp [escChar, takeText, takeTextEnt, ih]
      · by_cases h2 : c = '>'
        · subst h2; simp [escChar, takeText, takeTextEnt, ih]
        · by_cases h3 : c = '&'
          · subst h3; simp [escChar, takeText, takeTextEnt, ih]
          · by_cases h4 : c = '"'
            · subst h4; simp [escChar, takeText, takeTextEnt, ih]
            · by_cases h5 : c = '\''
              · subst h5; simp [escChar, takeText, takeTextEnt, ih]
              · simp only [escChar, h1, h2, h3, h4, h5, if_neg, if_false,
                  List.cons_append, List.nil_append]
                simp only [takeText, h1, h3, if_neg, if_false, List.append_eq]
                rw [ih]
                rfl

theorem takeAttValue_append (v : List Char) (hv : safeAttrL v) (rest : List Char) :
    takeAttValue (v ++ '"' :: rest) = some (v, '"' :: rest) := by
  induction v with
  | nil => simp [takeAttValue]
  | cons c cs ih =>
      rcases hv c (List.mem_cons_self c cs) with ⟨h1, h2, h3⟩
      simp only [List.cons_append, takeAttValue, h1, h2, h3, if_false, if_neg,
        List.append_eq]
      rw [ih (fun d hd => hv d (List.mem_cons_of_mem c hd))]
      rfl

theorem takeCData_append : ∀ s : List Char, hasCDataTerm s = false →
    ∀ rest : List Char,
      takeCData (s ++ ']' :: ']' :: '>' :: rest) = some (s, rest) := by
  intro s
  induction s with
  | nil => intro _ rest; rfl
  | cons c cs ih =>
      intro h rest
      rw [hasCDataTerm] at h
      split at h
      · exact absurd h (by simp)
      · rename_i hno
        have hcond : ¬(c = ']' ∧ hd2 (cs ++ ']' :: ']' :: '>' :: rest) ']' '>') := by
          rintro ⟨rfl, h2⟩
          rcases cs with _ | ⟨c1, cs1⟩
          · simp [hd2] at h2
          · rcases cs1 with _ | ⟨c2, cs2⟩
            · simp [hd2] at h2
            · simp only [List.cons_append, hd2, Bool.and_eq_true, beq_iff_eq] at h2
              exact hno ⟨rfl, by simp [hd2, h2.1, h2.2]⟩
        simp only [List.cons_append, takeCData]
        rw [show cs.append (']' :: ']' :: '>' :: rest)
            = cs ++ ']' :: ']' :: '>' :: rest from rfl, ih h rest]
        simp [hcond]

theorem isWSChar_of_nameChar (c : Char) (h : isNameChar c = true) :
    isWSChar c = false := by
  unfold isWSChar
  by_cases h1 : c = ' '
  · subst h1; exact absurd h (by decide)
  · by_cases h2 : c = '\n'
    · subst h2; exact absurd h (by decide)
    · by_cases h3 : c = '\t'
      · subst h3; exact absurd h (by decide)
      · by_cases h4 : c = '\r'
        · subst h4; exact absurd h (by decide)
        · simp [h1, h2, h3, h4]

theorem nameChar_ne_gt_slash (c : Char) (h : isNameChar c = true) :
    ¬(c = '>' ∨ c = '/') := by
  rintro (rfl | rfl) <;> exact absurd h (by decide)

theorem skipWS_cons_wsT (c : Char) (h : isWSChar c = true) (cs : List Char) :
    skipWS (c :: cs) = skipWS cs := by
  simp [skipWS, h]

theorem skipWS_cons_not_ws (c : Char) (h : isWSChar c = false) (cs : List Char) :
    skipWS (c :: cs) = c :: cs := by
  simp [skipWS, h]

theorem takeOneAttr_append (n v : String) (hn : n ≠ "")
    (hnc : ∀ c ∈ n.data, isNameChar c = true) (hv : safeAttrL v.data)
    (rest : List Char) :
    takeOneAttr (n.data ++ '=' :: '"' :: (v.data ++ '"' :: rest))
      = some ((n, v), rest) := by
  obtain ⟨c, cs, hd⟩ : ∃ c cs, n.data = c :: cs := by
    cases hnd : n.data with
    | nil => exact absurd (String.ext hnd) hn
    | cons c cs => exact ⟨c, cs, rfl⟩
  unfold takeOneAttr
  rw [takeName_append n.data hnc '=' (by decide) ('"' :: (v.data ++ '"' :: rest))]
  rw [hd]
  simp only [skipWS_cons_not_ws '=' (by decide), skipWS_cons_not_ws '"' (by decide)]
  rw [takeAttValue_append v.data hv rest]
  simp [← hd]

theorem takeAttrs_append (as : List (String × String)) :
    ∀ fuel, as.length < fuel → wfAttrs as →
      ∀ c rest, (c = '>' ∨ c = '/') → isWSChar c = false →
        takeAttrs fuel (renderAttrs as ++ c :: rest) = some (as, c :: rest) := by
  induction as with
  | nil =>
      intro fuel hf _ c rest hc hws
      match fuel, hf with
      | f + 1, _ =>
          simp only [renderAttrs, List.nil_append, takeAttrs,
            skipWS_cons_not_ws c hws rest]
          simp [hc]
  | cons a as ih =>
      intro fuel hf hwf c rest hc hws
      cases fuel with
      | zero => omega
      | succ f =>
          rcases a with ⟨n, v⟩
          rcases hwf (n, v) (List.mem_cons_self _ _) with ⟨hn, hnc, hv⟩
          obtain ⟨nc, ncs, hd⟩ : ∃ nc ncs, n.data = nc :: ncs := by
            cases hnd : n.data with
            | nil => exact absurd (String.ext hnd) hn
            | cons nc ncs => exact ⟨nc, ncs, rfl⟩
          have hnc0 : isNameChar nc = true := by
            apply hnc; rw [hd]; exact List.mem_cons_self _ _
          simp only [renderAttrs, List.cons_append, takeAttrs]
          rw [skipWS_cons_wsT ' ' (by decide)]
          rw [hd]
          simp only [List.cons_append, List.append_assoc]
          rw [skipWS_cons_not_ws nc (isWSChar_of_nameChar nc hnc0)]
          have hng : ¬(nc = '>' ∨ nc = '/') := nameChar_ne_gt_slash nc hnc0
          simp only [hng, if_neg, if_false]
          have hone := takeOneAttr_append n v hn hnc hv
            (renderAttrs as ++ c :: rest)
          rw [hd] at hone
          simp only [List.cons_append, List.append_assoc] at hone
          rw [hone]
          show Option.map (fun p => ((n, v) :: p.1, p.2))
            (takeAttrs f (renderAttrs as ++ c :: rest)) = _
          simp only [List.length_cons] at hf
          rw [ih f (by omega) (fun p hp => hwf p (List.mem_cons_of_mem _ hp))
            c rest hc hws]
          rfl

theorem renderAttrs_length_ge (as : List (String × String)) :
    as.length ≤ (renderAttrs as).length := by
  induction as with
  | nil => simp [renderAttrs]
  | cons a as ih =>
      rcases a with ⟨n, v⟩
      simp only [renderAttrs, List.length_cons, List.length_append]
      omega

/-- Composition lemma for one serialized element: given that the content
between the tags parses to `kids` and stops exactly at the matching end
tag, the whole serialized element parses to the element node. -/
theorem parseElem_mk (f : Nat) (tagS : String) (htne : tagS ≠ "")
    (htc : ∀ c ∈ tagS.data, isNameChar c = true)
    (as : List (String × String)) (has : wfAttrs as)
    (mid : List Char) (kids : List XNode) (rest : List Char)
    (hc : parseContent f mid = some (kids, '<' :: '/' :: (tagS.data ++ '>' :: rest))) :
    parseElem (f + 1) ('<' :: (tagS.data ++ (renderAttrs as ++ '>' :: mid)))
      = some (.elem tagS as kids, rest) := by
  obtain ⟨tc, tcs, hdt⟩ : ∃ tc tcs, tagS.data = tc :: tcs := by
    cases hnd : tagS.data with
    | nil => exact absurd (String.ext hnd) htne
    | cons tc tcs => exact ⟨tc, tcs, rfl⟩
  obtain ⟨c', rest', hsplit, hns⟩ :
      ∃ c' rest', renderAttrs as ++ '>' :: mid = c' :: rest' ∧ isNameChar c' = false := by
    cases as with
    | nil => exact ⟨'>', mid, rfl, by decide⟩
    | cons a as =>
        rcases a with ⟨n, v⟩
        exact ⟨' ', n.data ++ '=' :: '"' :: (v.data ++ '"' :: renderAttrs as) ++ '>' :: mid,
          by simp [renderAttrs], by decide⟩
  have hfuel : as.length < (renderAttrs as ++ '>' :: mid).length + 1 := by
    have := renderAttrs_length_ge as
    simp only [List.length_append]
    omega
  have hattrs := takeAttrs_append as ((renderAttrs as ++ '>' :: mid).length + 1)
    hfuel has '>' mid (Or.inl rfl) (by decide)
  simp only [parseElem]
  rw [hsplit, takeName_append tagS.data htc c' hns rest', ← hsplit]
  rw [hdt] at hc htc
  rw [hdt]
  simp only [hattrs, hc]
  rw [takeName_append (tc :: tcs) htc '>' (by decide) rest]
  rw [if_pos rfl]
  rw [skipWS_cons_not_ws '>' (by decide)]
  rw [← hdt]
  rfl

theorem pcStep_stop (f : Nat) (r : List Char) :
    parseContent (f + 1) ('<' :: '/' :: r) = some ([], '<' :: '/' :: r) := by
  simp [parseContent, hd1]

theorem pcStep_text (f : Nat) (c : Char) (hc : c ≠ '<') (cs1 txt r2 : List Char)
    (ht : takeText (c :: cs1) = some (txt, r2)) (ns : List XNode) (r3 : List Char)
    (hrec : parseContent f r2 = some (ns, r3)) :
    parseContent (f + 1) (c :: cs1) = some (.text ⟨txt⟩ :: ns, r3) := by
  simp only [parseContent, hc, if_neg, if_false, ht, hrec]

theorem isPrefixOf_append_self (p X : List Char) :
    List.isPrefixOf p (p ++ X) = true := by
  induction p with
  | nil => simp [List.isPrefixOf]
  | cons a as ih => simp [List.isPrefixOf, ih]

theorem pcStep_elem (f : Nat) (cs1 : List Char)
    (nd : XNode) (r2 : List Char) (ns : List XNode) (r3 : List Char)
    (he : parseElem f ('<' :: cs1) = some (nd, r2))
    (hrec : parseContent f r2 = some (ns, r3))
    (h1 : hd1 cs1 '/' = false) (h2 : List.isPrefixOf "![CDATA[".data cs1 = false)
    (h3 : hd1 cs1 '!' = false) (h4 : hd1 cs1 '?' = false) :
    parseContent (f + 1) ('<' :: cs1) = some (nd :: ns, r3) := by
  simp only [parseContent, if_pos, h1, h2, h3, h4, Bool.false_eq_true, if_false,
    he, hrec]

theorem pcStep_cdata (f : Nat) (src : List Char) (hterm : hasCDataTerm src = false)
    (r2 : List Char) (ns : List XNode) (r3 : List Char)
    (hrec : parseContent f r2 = some (ns, r3)) :
    parseContent (f + 1)
        ('<' :: ("![CDATA[".data ++ (src ++ ']' :: ']' :: '>' :: r2)))
      = some (.text ⟨src⟩ :: ns, r3) := by
  have hpre : List.isPrefixOf "![CDATA[".data
      ("![CDATA[".data ++ (src ++ ']' :: ']' :: '>' :: r2)) = true :=
    isPrefixOf_append_self _ _
  have hdrop : ("![CDATA[".data ++ (src ++ ']' :: ']' :: '>' :: r2)).drop 8
      = src ++ ']' :: ']' :: '>' :: r2 := by
    rw [show (8 : Nat) = "![CDATA[".data.length from rfl]
    exact List.drop_left _ _
  have hd1f : hd1 ("![CDATA[".data ++ (src ++ ']' :: ']' :: '>' :: r2)) '/' = false := by
    rfl
  simp only [parseContent, if_pos, hd1f, Bool.false_eq_true, if_false, hpre, if_true,
    hdrop, takeCData_append src hterm r2, hrec]

theorem strRepeat_data (n : Nat) :
    (strRepeat "  " n).data = List.replicate (2 * n) ' ' := by
  induction n with
  | zero => rfl
  | succ n ih =>
      have h1 : strRepeat "  " (n + 1) = "  " ++ strRepeat "  " n := by
        unfold strRepeat
        rw [List.replicate_succ, strJoin_cons]
      rw [h1, strData_append, ih]
      rw [show 2 * (n + 1) = 2 * n + 1 + 1 by ring]
      rw [List.replicate_succ, List.replicate_succ]
      rfl

theorem safeAttrB_safeAttrL (s : String) (h : safeAttrB s = true) :
    safeAttrL s.data := by
  intro c hc
  have := List.all_eq_true.mp h c hc
  simp only [Bool.and_eq_true, Bool.not_eq_true', beq_eq_false_iff_ne] at this
  exact ⟨this.1.1, this.1.2, this.2⟩

theorem genItem_data (rng : Nat → Nat) (i nm cn : String) (src : Option String)
    (kids : List RobloxAsset) (props : Option (List (String × PropVal)))
    (d k : Nat) :
    (generateItem rng (.mk i nm cn src kids props) d k).1
      = strRepeat "  " (d + 1) ++ itemBody rng (.mk i nm cn src kids props) d k := by
  cases hgc : generateChildren rng kids (d + 1) (k + 1) with
  | mk a b =>
      simp only [generateItem, itemBody, hgc]
      apply String.ext
      simp [strData_append, List.append_assoc]

theorem generateChildren_counter (rng : Nat → Nat) :
    ∀ cs : List RobloxAsset,
      (∀ c ∈ cs, ∀ d' k', (generateItem rng c d' k').2 = k' + numNodes c) →
      ∀ d' k', (generateChildren rng cs d' k').2 = k' + numNodesList cs := by
  intro cs
  induction cs with
  | nil => intro _ d' k'; simp [generateChildren, numNodesList]
  | cons c cs ihcs =>
      intro hmem d' k'
      cases hg1 : generateItem rng c d' k' with
      | mk s1 k1 =>
          cases hg2 : generateChildren rng cs d' k1 with
          | mk s2 k2 =>
              have h1 : k1 = k' + numNodes c := by
                have := hmem c (List.mem_cons_self c cs) d' k'
                rw [hg1] at this
                exact this
              have h2 : k2 = k1 + numNodesList cs := by
                have := ihcs (fun x hx => hmem x (List.mem_cons_of_mem c hx)) d' k1
                rw [hg2] at this
                exact this
              simp only [generateChildren, hg1, hg2, numNodesList]
              omega

theorem generateItem_counter (rng : Nat → Nat) :
    ∀ t d k, (generateItem rng t d k).2 = k + numNodes t := by
  intro t
  induction t using RobloxAsset.inductionOn with
  | h i nm cn src kids props ih =>
      intro d k
      cases hgc : generateChildren rng kids (d + 1) (k + 1) with
      | mk a b =>
          have hb : b = (k + 1) + numNodesList kids := by
            have := generateChildren_counter rng kids
              (fun c hc => ih c hc) (d + 1) (k + 1)
            rw [hgc] at this
            exact this
          simp only [generateItem, hgc, numNodes]
          omega

theorem escChar_head (c : Char) :
    ∃ h tl, escChar c = h :: tl ∧ h ≠ '<' := by
  by_cases h1 : c = '<'
  · subst h1; exact ⟨'&', _, rfl, by decide⟩
  · by_cases h2 : c = '>'
    · subst h2; exact ⟨'&', _, rfl, by decide⟩
    · by_cases h3 : c = '&'
      · subst h3; exact ⟨'&', _, rfl, by decide⟩
      · by_cases h4 : c = '"'
        · subst h4; exact ⟨'&', _, rfl, by decide⟩
        · by_cases h5 : c = '\''
          · subst h5; exact ⟨'&', _, rfl, by decide⟩
          · exact ⟨c, [], by simp [escChar, h1, h2, h3, h4, h5], h1⟩

theorem escBody_parse (v : List Char) (f : Nat) (r' : List Char) :
    parseContent (f + 2) (escL v ++ '<' :: '/' :: r')
      = some (txtOptL v, '<' :: '/' :: r') := by
  cases v with
  | nil =>
      show parseContent (f + 2) ('<' :: '/' :: r') = _
      rw [pcStep_stop]
      rfl
  | cons c cs =>
      obtain ⟨hc, tl, hesc, hlt⟩ := escChar_head c
      have hshape : escL (c :: cs) ++ '<' :: '/' :: r'
          = hc :: (tl ++ escL cs ++ '<' :: '/' :: r') := by
        show (escChar c ++ escL cs) ++ _ = _
        rw [hesc]
        simp [List.append_assoc]
      rw [hshape]
      have ht : takeText (hc :: (tl ++ escL cs ++ '<' :: '/' :: r'))
          = some (c :: cs, '<' :: '/' :: r') := by
        have := takeText_escL (c :: cs) ('/' :: r')
        rw [show escL (c :: cs) ++ '<' :: '/' :: r'
            = hc :: (tl ++ escL cs ++ '<' :: '/' :: r') from hshape] at this
        exact this
      rw [pcStep_text (f + 1) hc hlt _ (c :: cs) ('<' :: '/' :: r') ht []
        ('<' :: '/' :: r') (pcStep_stop f r')]
      simp [txtOptL]

theorem plainBody_parse (t : List Char) (hne : t ≠ [])
    (hp : ∀ c ∈ t, c ≠ '<' ∧ c ≠ '&') (f : Nat) (r' : List Char) :
    parseContent (f + 2) (t ++ '<' :: '/' :: r')
      = some ([.text ⟨t⟩], '<' :: '/' :: r') := by
  cases t with
  | nil => exact absurd rfl hne
  | cons c cs =>
      have hlt : c ≠ '<' := (hp c (List.mem_cons_self c cs)).1
      have ht : takeText (c :: (cs ++ '<' :: '/' :: r'))
          = some (c :: cs, '<' :: '/' :: r') := by
        have := takeText_append_plain (c :: cs) hp ('/' :: r')
        simpa using this
      rw [show (c :: cs) ++ '<' :: '/' :: r' = c :: (cs ++ '<' :: '/' :: r') from rfl]
      rw [pcStep_text (f + 1) c hlt _ (c :: cs) ('<' :: '/' :: r') ht []
        ('<' :: '/' :: r') (pcStep_stop f r')]

theorem cdataBody_parse (s : List Char) (hterm : hasCDataTerm s = false)
    (f : Nat) (r' : List Char) :
    parseContent (f + 2)
        ('<' :: ("![CDATA[".data ++ (s ++ ']' :: ']' :: '>' :: ('<' :: '/' :: r'))))
      = some ([.text ⟨s⟩], '<' :: '/' :: r') :=
  pcStep_cdata (f + 1) s hterm ('<' :: '/' :: r') [] ('<' :: '/' :: r')
    (pcStep_stop f r')

theorem toDigitsCore_ne_nil (f : Nat) :
    ∀ n acc, acc ≠ [] → Nat.toDigitsCore 10 f n acc ≠ [] := by
  induction f with
  | zero => intro n acc hacc; exact hacc
  | succ f ih =>
      intro n acc hacc
      rw [Nat.toDigitsCore]
      by_cases hz : n / 10 = 0
      · simp only [hz, if_pos]
        exact List.cons_ne_nil _ _
      · simp only [hz, if_neg, if_false]
        exact ih (n / 10) _ (List.cons_ne_nil _ _)

theorem natRepr_ne_nil (n : Nat) : (Nat.repr n).data ≠ [] := by
  show Nat.toDigitsCore 10 (n + 1) n [] ≠ []
  rw [Nat.toDigitsCore]
  by_cases hz : n / 10 = 0
  · simp only [hz, if_pos]
    exact List.cons_ne_nil _ _
  · simp only [hz, if_neg, if_false]
    exact toDigitsCore_ne_nil n (n / 10) _ (List.cons_ne_nil _ _)

theorem intRepr_ne_nil (v : Int) : (Int.repr v).data ≠ [] := by
  cases v with
  | ofNat m => exact natRepr_ne_nil m
  | negSucc m =>
      show ("-" ++ Nat.repr (m + 1)).data ≠ []
      rw [strData_append]
      simp

theorem intRepr_plain (v : Int) : ∀ c ∈ (Int.repr v).data, c ≠ '<' ∧ c ≠ '&' := by
  intro c hc
  have hdig : c.isDigit = true ∨ c = '-' := by
    cases v with
    | ofNat m => exact Or.inl (natRepr_digits m c hc)
    | negSucc m =>
        rw [show (Int.negSucc m).repr = "-" ++ Nat.repr (m + 1) from rfl,
          strData_append] at hc
        rcases List.mem_append.mp hc with h | h
        · right; simpa using h
        · exact Or.inl (natRepr_digits (m + 1) c h)
  rcases hdig with h | rfl
  · constructor <;> (rintro rfl; exact absurd h (by decide))
  · exact ⟨by decide, by decide⟩

theorem indD_chars (d : Nat) : ∀ c ∈ (indD d).data, c = ' ' := by
  intro c hc
  rw [show (indD d).data = List.replicate (2 * (d + 1)) ' ' from strRepeat_data (d + 1)]
    at hc
  exact List.eq_of_mem_replicate hc

theorem indD_succ_data (d : Nat) :
    (indD (d + 1)).data = (indD d).data ++ [' ', ' '] := by
  rw [show (indD (d + 1)).data = List.replicate (2 * (d + 2)) ' ' from
      strRepeat_data (d + 2),
    show (indD d).data = List.replicate (2 * (d + 1)) ' ' from strRepeat_data (d + 1),
    show 2 * (d + 2) = 2 * (d + 1) + 2 by ring,
    List.replicate_add]
  rfl

theorem indD_add2_data (d : Nat) :
    (indD (d + 2)).data = (indD d).data ++ [' ', ' ', ' ', ' '] := by
  rw [indD_succ_data (d + 1), indD_succ_data d]
  simp

/-- The two separator runs are plain (no `<` or `&`). -/
theorem sep_plain (d : Nat) (ex : List Char) (hex : ∀ c ∈ ex, c = ' ') :
    ∀ c ∈ '\n' :: ((indD d).data ++ ex), c ≠ '<' ∧ c ≠ '&' := by
  intro c hc
  rcases List.mem_cons.mp hc with rfl | hc
  · exact ⟨by decide, by decide⟩
  · rcases List.mem_append.mp hc with h | h
    · rw [indD_chars d c h]; exact ⟨by decide, by decide⟩
    · rw [hex c h]; exact ⟨by decide, by decide⟩

/-- One separator text run (`"\n"`, indentation, `ex` extra spaces)
followed by further content starting at a `<`. -/
theorem sepStep (f d : Nat) (ex : List Char) (hex : ∀ c ∈ ex, c = ' ')
    (A : List Char) (ns : List XNode) (r3 : List Char)
    (hrec : parseContent f ('<' :: A) = some (ns, r3)) :
    parseContent (f + 1) ('\n' :: ((indD d).data ++ (ex ++ ('<' :: A))))
      = some (.text ⟨'\n' :: ((indD d).data ++ ex)⟩ :: ns, r3) := by
  have ht : takeText ('\n' :: ((indD d).data ++ (ex ++ ('<' :: A))))
      = some ('\n' :: ((indD d).data ++ ex), '<' :: A) := by
    have := takeText_append_plain ('\n' :: ((indD d).data ++ ex))
      (sep_plain d ex hex) A
    rw [show ('\n' :: ((indD d).data ++ ex)) ++ '<' :: A
        = '\n' :: ((indD d).data ++ (ex ++ ('<' :: A))) by simp [List.append_assoc]]
      at this
    exact this
  exact pcStep_text f '\n' (by decide) _ _ _ ht ns r3 hrec

theorem sepNode_succ (d : Nat) :
    XNode.text ⟨'\n' :: ((indD d).data ++ [' ', ' '])⟩ = sepL (d + 1) := by
  unfold sepL
  apply congrArg
  apply String.ext
  show '\n' :: ((indD d).data ++ [' ', ' ']) = '\n' :: (indD (d + 1)).data
  rw [indD_succ_data]

theorem sepNode_add2 (d : Nat) :
    XNode.text ⟨'\n' :: ((indD d).data ++ [' ', ' ', ' ', ' '])⟩ = sepL (d + 2) := by
  unfold sepL
  apply congrArg
  apply String.ext
  show '\n' :: ((indD d).data ++ [' ', ' ', ' ', ' ']) = '\n' :: (indD (d + 2)).data
  rw [indD_add2_data]

theorem txtOpt_eq (v : String) : txtOptL v.data = txtOpt v := by
  by_cases hv : v = ""
  · subst hv; rfl
  · have hd : v.data ≠ [] := fun h => hv (String.ext h)
    simp only [txtOpt, txtOptL, hv, hd, if_neg, if_false]

/-! Character-list expansions of the string literals of the codec, used
to normalize serialized fragments into canonical cons form. -/

theorem litD1 : ("<Item class=\"" : String).data = '<' :: 'I' :: 't' :: 'e' :: 'm' :: ' ' :: 'c' :: 'l' :: 'a' :: 's' :: 's' :: '=' :: '\"' :: ([] : List Char) := rfl

theorem litD2 : ("\" referent=\"" : String).data = '\"' :: ' ' :: 'r' :: 'e' :: 'f' :: 'e' :: 'r' :: 'e' :: 'n' :: 't' :: '=' :: '\"' :: ([] : List Char) := rfl

theorem litD3 : ("\">\n" : String).data = '\"' :: '>' :: '\n' :: ([] : List Char) := rfl

theorem litD4 : ("  <Properties>\n" : String).data = ' ' :: ' ' :: '<' :: 'P' :: 'r' :: 'o' :: 'p' :: 'e' :: 'r' :: 't' :: 'i' :: 'e' :: 's' :: '>' :: '\n' :: ([] : List Char) := rfl

theorem litD5 : ("    <string name=\"Name\">" : String).data = ' ' :: ' ' :: ' ' :: ' ' :: '<' :: 's' :: 't' :: 'r' :: 'i' :: 'n' :: 'g' :: ' ' :: 'n' :: 'a' :: 'm' :: 'e' :: '=' :: '\"' :: 'N' :: 'a' :: 'm' :: 'e' :: '\"' :: '>' :: ([] : List Char) := rfl

theorem litD6 : ("</string>\n" : String).data = '<' :: '/' :: 's' :: 't' :: 'r' :: 'i' :: 'n' :: 'g' :: '>' :: '\n' :: ([] : List Char) := rfl

theorem litD7 : ("    <ProtectedString name=\"Source\"><![CDATA[" : String).data = ' ' :: ' ' :: ' ' :: ' ' :: '<' :: 'P' :: 'r' :: 'o' :: 't' :: 'e' :: 'c' :: 't' :: 'e' :: 'd' :: 'S' :: 't' :: 'r' :: 'i' :: 'n' :: 'g' :: ' ' :: 'n' :: 'a' :: 'm' :: 'e' :: '=' :: '\"' :: 'S' :: 'o' :: 'u' :: 'r' :: 'c' :: 'e' :: '\"' :: '>' :: '<' :: '!' :: '[' :: 'C' :: 'D' :: 'A' :: 'T' :: 'A' :: '[' :: ([] : List Char) := rfl

theorem litD8 : ("]]></ProtectedString>\n" : String).data = ']' :: ']' :: '>' :: '<' :: '/' :: 'P' :: 'r' :: 'o' :: 't' :: 'e' :: 'c' :: 't' :: 'e' :: 'd' :: 'S' :: 't' :: 'r' :: 'i' :: 'n' :: 'g' :: '>' :: '\n' :: ([] : List Char) := rfl

theorem litD9 : ("    <string name=\"" : String).data = ' ' :: ' ' :: ' ' :: ' ' :: '<' :: 's' :: 't' :: 'r' :: 'i' :: 'n' :: 'g' :: ' ' :: 'n' :: 'a' :: 'm' :: 'e' :: '=' :: '\"' :: ([] : List Char) := rfl

theorem litD10 : ("\">" : String).data = '\"' :: '>' :: ([] : List Char) := rfl

theorem litD11 : ("    <float name=\"" : String).data = ' ' :: ' ' :: ' ' :: ' ' :: '<' :: 'f' :: 'l' :: 'o' :: 'a' :: 't' :: ' ' :: 'n' :: 'a' :: 'm' :: 'e' :: '=' :: '\"' :: ([] : List Char) := rfl

theorem litD12 : ("</float>\n" : String).data = '<' :: '/' :: 'f' :: 'l' :: 'o' :: 'a' :: 't' :: '>' :: '\n' :: ([] : List Char) := rfl

theorem litD13 : ("    <bool name=\"" : String).data = ' ' :: ' ' :: ' ' :: ' ' :: '<' :: 'b' :: 'o' :: 'o' :: 'l' :: ' ' :: 'n' :: 'a' :: 'm' :: 'e' :: '=' :: '\"' :: ([] : List Char) := rfl

theorem litD14 : ("</bool>\n" : String).data = '<' :: '/' :: 'b' :: 'o' :: 'o' :: 'l' :: '>' :: '\n' :: ([] : List Char) := rfl

theorem litD15 : ("  </Properties>\n" : String).data = ' ' :: ' ' :: '<' :: '/' :: 'P' :: 'r' :: 'o' :: 'p' :: 'e' :: 'r' :: 't' :: 'i' :: 'e' :: 's' :: '>' :: '\n' :: ([] : List Char) := rfl

theorem litD16 : ("</Item>\n" : String).data = '<' :: '/' :: 'I' :: 't' :: 'e' :: 'm' :: '>' :: '\n' :: ([] : List Char) := rfl

theorem litD17 : ("true" : String).data = 't' :: 'r' :: 'u' :: 'e' :: ([] : List Char) := rfl

theorem litD18 : ("false" : String).data = 'f' :: 'a' :: 'l' :: 's' :: 'e' :: ([] : List Char) := rfl

theorem litD19 : ("RBX" : String).data = 'R' :: 'B' :: 'X' :: ([] : List Char) := rfl

theorem litD20 : ("<?xml version=\"1.0\" encoding=\"UTF-8\"?>\n" : String).data = '<' :: '?' :: 'x' :: 'm' :: 'l' :: ' ' :: 'v' :: 'e' :: 'r' :: 's' :: 'i' :: 'o' :: 'n' :: '=' :: '\"' :: '1' :: '.' :: '0' :: '\"' :: ' ' :: 'e' :: 'n' :: 'c' :: 'o' :: 'd' :: 'i' :: 'n' :: 'g' :: '=' :: '\"' :: 'U' :: 'T' :: 'F' :: '-' :: '8' :: '\"' :: '?' :: '>' :: '\n' :: ([] : List Char) := rfl

theorem litD21 : ("<roblox xmlns:xmime=\"http://www.w3.org/2005/05/xmlmime\" xmlns:xsi=\"http://www.w3.org/2001/XMLSchema-instance\" xsi:noNamespaceSchemaLocation=\"http://www.roblox.com/roblox.xsd\" version=\"4\">\n" : String).data = '<' :: 'r' :: 'o' :: 'b' :: 'l' :: 'o' :: 'x' :: ' ' :: 'x' :: 'm' :: 'l' :: 'n' :: 's' :: ':' :: 'x' :: 'm' :: 'i' :: 'm' :: 'e' :: '=' :: '\"' :: 'h' :: 't' :: 't' :: 'p' :: ':' :: '/' :: '/' :: 'w' :: 'w' :: 'w' :: '.' :: 'w' :: '3' :: '.' :: 'o' :: 'r' :: 'g' :: '/' :: '2' :: '0' :: '0' :: '5' :: '/' :: '0' :: '5' :: '/' :: 'x' :: 'm' :: 'l' :: 'm' :: 'i' :: 'm' :: 'e' :: '\"' :: ' ' :: 'x' :: 'm' :: 'l' :: 'n' :: 's' :: ':' :: 'x' :: 's' :: 'i' :: '=' :: '\"' :: 'h' :: 't' :: 't' :: 'p' :: ':' :: '/' :: '/' :: 'w' :: 'w' :: 'w' :: '.' :: 'w' :: '3' :: '.' :: 'o' :: 'r' :: 'g' :: '/' :: '2' :: '0' :: '0' :: '1' :: '/' :: 'X' :: 'M' :: 'L' :: 'S' :: 'c' :: 'h' :: 'e' :: 'm' :: 'a' :: '-' :: 'i' :: 'n' :: 's' :: 't' :: 'a' :: 'n' :: 'c' :: 'e' :: '\"' :: ' ' :: 'x' :: 's' :: 'i' :: ':' :: 'n' :: 'o' :: 'N' :: 'a' :: 'm' :: 'e' :: 's' :: 'p' :: 'a' :: 'c' :: 'e' :: 'S' :: 'c' :: 'h' :: 'e' :: 'm' :: 'a' :: 'L' :: 'o' :: 'c' :: 'a' :: 't' :: 'i' :: 'o' :: 'n' :: '=' :: '\"' :: 'h' :: 't' :: 't' :: 'p' :: ':' :: '/' :: '/' :: 'w' :: 'w' :: 'w' :: '.' :: 'r' :: 'o' :: 'b' :: 'l' :: 'o' :: 'x' :: '.' :: 'c' :: 'o' :: 'm' :: '/' :: 'r' :: 'o' :: 'b' :: 'l' :: 'o' :: 'x' :: '.' :: 'x' :: 's' :: 'd' :: '\"' :: ' ' :: 'v' :: 'e' :: 'r' :: 's' :: 'i' :: 'o' :: 'n' :: '=' :: '\"' :: '4' :: '\"' :: '>' :: '\n' :: ([] : List Char) := rfl

theorem litD22 : ("  <External>null</External>\n" : String).data = ' ' :: ' ' :: '<' :: 'E' :: 'x' :: 't' :: 'e' :: 'r' :: 'n' :: 'a' :: 'l' :: '>' :: 'n' :: 'u' :: 'l' :: 'l' :: '<' :: '/' :: 'E' :: 'x' :: 't' :: 'e' :: 'r' :: 'n' :: 'a' :: 'l' :: '>' :: '\n' :: ([] : List Char) := rfl

theorem litD23 : ("  <External>nil</External>\n" : String).data = ' ' :: ' ' :: '<' :: 'E' :: 'x' :: 't' :: 'e' :: 'r' :: 'n' :: 'a' :: 'l' :: '>' :: 'n' :: 'i' :: 'l' :: '<' :: '/' :: 'E' :: 'x' :: 't' :: 'e' :: 'r' :: 'n' :: 'a' :: 'l' :: '>' :: '\n' :: ([] : List Char) := rfl

theorem litD24 : ("</roblox>" : String).data = '<' :: '/' :: 'r' :: 'o' :: 'b' :: 'l' :: 'o' :: 'x' :: '>' :: ([] : List Char) := rfl

theorem litD25 : ("Item" : String).data = 'I' :: 't' :: 'e' :: 'm' :: ([] : List Char) := rfl

theorem litD26 : ("Properties" : String).data = 'P' :: 'r' :: 'o' :: 'p' :: 'e' :: 'r' :: 't' :: 'i' :: 'e' :: 's' :: ([] : List Char) := rfl

theorem litD27 : ("string" : String).data = 's' :: 't' :: 'r' :: 'i' :: 'n' :: 'g' :: ([] : List Char) := rfl

theorem litD28 : ("float" : String).data = 'f' :: 'l' :: 'o' :: 'a' :: 't' :: ([] : List Char) := rfl

theorem litD29 : ("bool" : String).data = 'b' :: 'o' :: 'o' :: 'l' :: ([] : List Char) := rfl

theorem litD30 : ("ProtectedString" : String).data = 'P' :: 'r' :: 'o' :: 't' :: 'e' :: 'c' :: 't' :: 'e' :: 'd' :: 'S' :: 't' :: 'r' :: 'i' :: 'n' :: 'g' :: ([] : List Char) := rfl

theorem litD31 : ("name" : String).data = 'n' :: 'a' :: 'm' :: 'e' :: ([] : List Char) := rfl

theorem litD32 : ("Name" : String).data = 'N' :: 'a' :: 'm' :: 'e' :: ([] : List Char) := rfl

theorem litD33 : ("Source" : String).data = 'S' :: 'o' :: 'u' :: 'r' :: 'c' :: 'e' :: ([] : List Char) := rfl

theorem litD34 : ("class" : String).data = 'c' :: 'l' :: 'a' :: 's' :: 's' :: ([] : List Char) := rfl

theorem litD35 : ("referent" : String).data = 'r' :: 'e' :: 'f' :: 'e' :: 'r' :: 'e' :: 'n' :: 't' :: ([] : List Char) := rfl

theorem litD36 : ("![CDATA[" : String).data = '!' :: '[' :: 'C' :: 'D' :: 'A' :: 'T' :: 'A' :: '[' :: ([] : List Char) := rfl

theorem litD37 : ("roblox" : String).data = 'r' :: 'o' :: 'b' :: 'l' :: 'o' :: 'x' :: ([] : List Char) := rfl

theorem litD38 : ("External" : String).data = 'E' :: 'x' :: 't' :: 'e' :: 'r' :: 'n' :: 'a' :: 'l' :: ([] : List Char) := rfl

theorem litD39 : ("null" : String).data = 'n' :: 'u' :: 'l' :: 'l' :: ([] : List Char) := rfl

theorem litD40 : ("nil" : String).data = 'n' :: 'i' :: 'l' :: ([] : List Char) := rfl

theorem litD41 : ("xmlns:xmime" : String).data = 'x' :: 'm' :: 'l' :: 'n' :: 's' :: ':' :: 'x' :: 'm' :: 'i' :: 'm' :: 'e' :: ([] : List Char) := rfl

theorem litD42 : ("http://www.w3.org/2005/05/xmlmime" : String).data = 'h' :: 't' :: 't' :: 'p' :: ':' :: '/' :: '/' :: 'w' :: 'w' :: 'w' :: '.' :: 'w' :: '3' :: '.' :: 'o' :: 'r' :: 'g' :: '/' :: '2' :: '0' :: '0' :: '5' :: '/' :: '0' :: '5' :: '/' :: 'x' :: 'm' :: 'l' :: 'm' :: 'i' :: 'm' :: 'e' :: ([] : List Char) := rfl

theorem litD43 : ("xmlns:xsi" : String).data = 'x' :: 'm' :: 'l' :: 'n' :: 's' :: ':' :: 'x' :: 's' :: 'i' :: ([] : List Char) := rfl

theorem litD44 : ("http://www.w3.org/2001/XMLSchema-instance" : String).data = 'h' :: 't' :: 't' :: 'p' :: ':' :: '/' :: '/' :: 'w' :: 'w' :: 'w' :: '.' :: 'w' :: '3' :: '.' :: 'o' :: 'r' :: 'g' :: '/' :: '2' :: '0' :: '0' :: '1' :: '/' :: 'X' :: 'M' :: 'L' :: 'S' :: 'c' :: 'h' :: 'e' :: 'm' :: 'a' :: '-' :: 'i' :: 'n' :: 's' :: 't' :: 'a' :: 'n' :: 'c' :: 'e' :: ([] : List Char) := rfl

theorem litD45 : ("xsi:noNamespaceSchemaLocation" : String).data = 'x' :: 's' :: 'i' :: ':' :: 'n' :: 'o' :: 'N' :: 'a' :: 'm' :: 'e' :: 's' :: 'p' :: 'a' :: 'c' :: 'e' :: 'S' :: 'c' :: 'h' :: 'e' :: 'm' :: 'a' :: 'L' :: 'o' :: 'c' :: 'a' :: 't' :: 'i' :: 'o' :: 'n' :: ([] : List Char) := rfl

theorem litD46 : ("http://www.roblox.com/roblox.xsd" : String).data = 'h' :: 't' :: 't' :: 'p' :: ':' :: '/' :: '/' :: 'w' :: 'w' :: 'w' :: '.' :: 'r' :: 'o' :: 'b' :: 'l' :: 'o' :: 'x' :: '.' :: 'c' :: 'o' :: 'm' :: '/' :: 'r' :: 'o' :: 'b' :: 'l' :: 'o' :: 'x' :: '.' :: 'x' :: 's' :: 'd' :: ([] : List Char) := rfl

theorem litD47 : ("version" : String).data = 'v' :: 'e' :: 'r' :: 's' :: 'i' :: 'o' :: 'n' :: ([] : List Char) := rfl

theorem litD48 : ("4" : String).data = '4' :: ([] : List Char) := rfl

/-- Parsing the serialized extra-property lines: each supported property
becomes a separator text node and a leaf element, unsupported entries
vanish, and the run ends with the closing-indentation text node, stopping
at the `</` of the enclosing `Properties` end tag. -/
theorem propsLines_seq (d : Nat) :
    ∀ ps : List (String × PropVal),
      (∀ p ∈ ps, safeAttrB p.1 = true) →
      ∀ f : Nat,
        6 * (ps.filter (fun p => decide (p.2 ≠ PropVal.pother))).length + 2 ≤ f →
        ∀ rest : List Char,
          parseContent f
              ('\n' :: ((String.join (ps.map (propLine (indD d)))).data
                ++ ((indD d).data ++ (' ' :: ' ' :: ('<' :: '/' :: rest)))))
            = some (ps.flatMap (propDom d) ++ [sepL (d + 1)], '<' :: '/' :: rest) := by
  intro ps
  induction ps with
  | nil =>
      intro _ f hf rest
      obtain ⟨f1, rfl⟩ : ∃ f1, f = f1 + 2 := ⟨f - 2, by omega⟩
      have hparse := sepStep (f1 + 1) d [' ', ' '] (by intro c hc; fin_cases hc <;> rfl)
        ('/' :: rest) [] ('<' :: '/' :: rest) (pcStep_stop f1 rest)
      rw [sepNode_succ d] at hparse
      exact hparse
  | cons p ps ih =>
      rcases p with ⟨n, pv⟩
      intro hsafe f hf rest
      have hsafeTail : ∀ p ∈ ps, safeAttrB p.1 = true :=
        fun p hp => hsafe p (List.mem_cons_of_mem _ hp)
      have hname : safeAttrL n.data :=
        safeAttrB_safeAttrL n (hsafe (n, pv) (List.mem_cons_self _ _))
      have hwfa : wfAttrs [("name", n)] := by
        intro p hp
        rw [List.mem_singleton] at hp
        subst hp
        refine ⟨show ("name" : String) ≠ "" by decide, ?_, hname⟩
        intro c hc
        fin_cases hc <;> rfl
      cases pv with
      | pother =>
          have hcnt : ((⟨n, PropVal.pother⟩ :: ps).filter
              (fun p => decide (p.2 ≠ PropVal.pother))).length
              = (ps.filter (fun p => decide (p.2 ≠ PropVal.pother))).length := by
            simp [List.filter]
          rw [hcnt] at hf
          have := ih hsafeTail f hf rest
          rw [List.map_cons, strJoin_cons]
          exact this
      | pstr v =>
          have hcnt : ((⟨n, PropVal.pstr v⟩ :: ps).filter
              (fun p => decide (p.2 ≠ PropVal.pother))).length
              = (ps.filter (fun p => decide (p.2 ≠ PropVal.pother))).length + 1 := by
            simp [List.filter]
          rw [hcnt] at hf
          obtain ⟨f1, hf1, rfl⟩ : ∃ f1,
              6 * (ps.filter (fun p => decide (p.2 ≠ PropVal.pother))).length + 2 ≤ f1
              ∧ f = f1 + 6 :=
            ⟨f - 6, by omega, by omega⟩
          have hmid : parseContent (f1 + 3)
              (escL v.data ++ '<' :: '/' :: ("string".data ++ '>'
                :: ('\n' :: ((String.join (ps.map (propLine (indD d)))).data
                  ++ ((indD d).data ++ (' ' :: ' ' :: ('<' :: '/' :: rest)))))))
              = some (txtOptL v.data, '<' :: '/' :: ("string".data ++ '>'
                :: ('\n' :: ((String.join (ps.map (propLine (indD d)))).data
                  ++ ((indD d).data ++ (' ' :: ' ' :: ('<' :: '/' :: rest))))))) :=
            escBody_parse v.data (f1 + 1) _
          have he := parseElem_mk (f1 + 3) "string" (by decide)
            (by intro c hc; fin_cases hc <;> rfl) [("name", n)] hwfa
            _ _ _ hmid
          have hcont := ih hsafeTail (f1 + 4) (by omega) rest
          have helemstep := pcStep_elem (f1 + 4) _ _ _ _ _ he hcont rfl rfl rfl rfl
          have hparse := sepStep (f1 + 5) d [' ', ' ', ' ', ' ']
            (by intro c hc; fin_cases hc <;> rfl) _ _ _ helemstep
          rw [sepNode_add2 d, txtOpt_eq v] at hparse
          rw [List.map_cons, strJoin_cons,
            show propLine (indD d) (n, .pstr v)
              = indD d ++ "    <string name=\"" ++ n ++ "\">" ++ escapeXml v
                ++ "</string>\n" from rfl,
            escapeXml_eq v]
          simp only [litD1, litD2, litD3, litD4, litD5, litD6, litD7, litD8, litD9, litD10, litD11, litD12, litD13, litD14, litD15, litD16, litD17, litD18, litD19, litD20, litD21, litD22, litD23, litD24, litD25, litD26, litD27, litD28, litD29, litD30, litD31, litD32, litD33, litD34, litD35, litD36, litD37, litD38, litD39, litD40, litD41, litD42, litD43, litD44, litD45, litD46, litD47, litD48,
            strData_append, renderAttrs, escL, propDom, List.flatMap_cons,
            List.flatMap_nil, List.cons_append, List.append_assoc, List.nil_append,
            List.append_nil] at hparse ⊢
          exact hparse
      | pnum v =>
          have hcnt : ((⟨n, PropVal.pnum v⟩ :: ps).filter
              (fun p => decide (p.2 ≠ PropVal.pother))).length
              = (ps.filter (fun p => decide (p.2 ≠ PropVal.pother))).length + 1 := by
            simp [List.filter]
          rw [hcnt] at hf
          obtain ⟨f1, hf1, rfl⟩ : ∃ f1,
              6 * (ps.filter (fun p => decide (p.2 ≠ PropVal.pother))).length + 2 ≤ f1
              ∧ f = f1 + 6 :=
            ⟨f - 6, by omega, by omega⟩
          have hmid : parseContent (f1 + 3)
              ((Int.repr v).data ++ '<' :: '/' :: ("float".data ++ '>'
                :: ('\n' :: ((String.join (ps.map (propLine (indD d)))).data
                  ++ ((indD d).data ++ (' ' :: ' ' :: ('<' :: '/' :: rest)))))))
              = some ([.text ⟨(Int.repr v).data⟩], '<' :: '/' :: ("float".data ++ '>'
                :: ('\n' :: ((String.join (ps.map (propLine (indD d)))).data
                  ++ ((indD d).data ++ (' ' :: ' ' :: ('<' :: '/' :: rest))))))) :=
            plainBody_parse (Int.repr v).data (intRepr_ne_nil v) (intRepr_plain v)
              (f1 + 1) _
          have he := parseElem_mk (f1 + 3) "float" (by decide)
            (by intro c hc; fin_cases hc <;> rfl) [("name", n)] hwfa
            _ _ _ hmid
          have hcont := ih hsafeTail (f1 + 4) (by omega) rest
          have helemstep := pcStep_elem (f1 + 4) _ _ _ _ _ he hcont rfl rfl rfl rfl
          have hparse := sepStep (f1 + 5) d [' ', ' ', ' ', ' ']
            (by intro c hc; fin_cases hc <;> rfl) _ _ _ helemstep
          rw [sepNode_add2 d] at hparse
          rw [List.map_cons, strJoin_cons,
            show propLine (indD d) (n, .pnum v)
              = indD d ++ "    <float name=\"" ++ n ++ "\">" ++ Int.repr v
                ++ "</float>\n" from rfl]
          simp only [litD1, litD2, litD3, litD4, litD5, litD6, litD7, litD8, litD9, litD10, litD11, litD12, litD13, litD14, litD15, litD16, litD17, litD18, litD19, litD20, litD21, litD22, litD23, litD24, litD25, litD26, litD27, litD28, litD29, litD30, litD31, litD32, litD33, litD34, litD35, litD36, litD37, litD38, litD39, litD40, litD41, litD42, litD43, litD44, litD45, litD46, litD47, litD48,
            strData_append, renderAttrs, escL, propDom, List.flatMap_cons,
            List.flatMap_nil, List.cons_append, List.append_assoc, List.nil_append,
            List.append_nil] at hparse ⊢
          exact hparse
      | pbool v =>
          have hcnt : ((⟨n, PropVal.pbool v⟩ :: ps).filter
              (fun p => decide (p.2 ≠ PropVal.pother))).length
              = (ps.filter (fun p => decide (p.2 ≠ PropVal.pother))).length + 1 := by
            simp [List.filter]
          rw [hcnt] at hf
          obtain ⟨f1, hf1, rfl⟩ : ∃ f1,
              6 * (ps.filter (fun p => decide (p.2 ≠ PropVal.pother))).length + 2 ≤ f1
              ∧ f = f1 + 6 :=
            ⟨f - 6, by omega, by omega⟩
          have hmid : parseContent (f1 + 3)
              ((cond v "true" "false").data ++ '<' :: '/' :: ("bool".data ++ '>'
                :: ('\n' :: ((String.join (ps.map (propLine (indD d)))).data
                  ++ ((indD d).data ++ (' ' :: ' ' :: ('<' :: '/' :: rest)))))))
              = some ([.text ⟨(cond v "true" "false").data⟩],
                '<' :: '/' :: ("bool".data ++ '>'
                :: ('\n' :: ((String.join (ps.map (propLine (indD d)))).data
                  ++ ((indD d).data ++ (' ' :: ' ' :: ('<' :: '/' :: rest))))))) :=
            plainBody_parse (cond v "true" "false").data
              (by cases v <;> decide)
              (by cases v <;> (intro c hc; fin_cases hc <;> exact ⟨by decide, by decide⟩))
              (f1 + 1) _
          have he := parseElem_mk (f1 + 3) "bool" (by decide)
            (by intro c hc; fin_cases hc <;> rfl) [("name", n)] hwfa
            _ _ _ hmid
          have hcont := ih hsafeTail (f1 + 4) (by omega) rest
          have helemstep := pcStep_elem (f1 + 4) _ _ _ _ _ he hcont rfl rfl rfl rfl
          have hparse := sepStep (f1 + 5) d [' ', ' ', ' ', ' ']
            (by intro c hc; fin_cases hc <;> rfl) _ _ _ helemstep
          rw [sepNode_add2 d] at hparse
          rw [List.map_cons, strJoin_cons,
            show propLine (indD d) (n, .pbool v)
              = indD d ++ "    <bool name=\"" ++ n ++ "\">" ++ (cond v "true" "false")
                ++ "</bool>\n" from rfl]
          simp only [litD1, litD2, litD3, litD4, litD5, litD6, litD7, litD8, litD9, litD10, litD11, litD12, litD13, litD14, litD15, litD16, litD17, litD18, litD19, litD20, litD21, litD22, litD23, litD24, litD25, litD26, litD27, litD28, litD29, litD30, litD31, litD32, litD33, litD34, litD35, litD36, litD37, litD38, litD39, litD40, litD41, litD42, litD43, litD44, litD45, litD46, litD47, litD48,
            strData_append, renderAttrs, escL, propDom, List.flatMap_cons,
            List.flatMap_nil, List.cons_append, List.append_assoc, List.nil_append,
            List.append_nil] at hparse ⊢
          exact hparse

theorem propsOption_seq (d : Nat) (props : Option (List (String × PropVal)))
    (hps : ∀ ps, props = some ps → ∀ p ∈ ps, safeAttrB p.1 = true)
    (f : Nat) (hf : 6 * propCount props + 2 ≤ f) (rest : List Char) :
    parseContent f
        ('\n' :: ((propsSection (indD d) props).data
          ++ ((indD d).data ++ (' ' :: ' ' :: ('<' :: '/' :: rest)))))
      = some (propsDoms d props ++ [sepL (d + 1)], '<' :: '/' :: rest) := by
  cases props with
  | none => exact propsLines_seq d [] (by intro p hp; simp at hp) f (by simpa using hf) rest
  | some ps =>
      exact propsLines_seq d ps (hps ps rfl) f (by simpa [propCount] using hf) rest

theorem srcProps_seq (d : Nat) (cn : String) (src : Option String)
    (props : Option (List (String × PropVal)))
    (hcd : ∀ s, src = some s → s ≠ "" ∧ isScriptClass cn →
      hasCDataTerm s.data = false)
    (hps : ∀ ps, props = some ps → ∀ p ∈ ps, safeAttrB p.1 = true)
    (f : Nat) (hf : 6 * emittedLines cn src props + 2 ≤ f) (rest : List Char) :
    parseContent f
        ('\n' :: ((sourceLine (indD d) cn src).data
          ++ ((propsSection (indD d) props).data
            ++ ((indD d).data ++ (' ' :: ' ' :: ('<' :: '/' :: rest))))))
      = some (srcDoms d cn src ++ (propsDoms d props ++ [sepL (d + 1)]),
          '<' :: '/' :: rest) := by
  cases src with
  | none =>
      have := propsOption_seq d props hps f (by simpa [emittedLines, propCount] using hf) rest
      rw [show srcDoms d cn none = [] from rfl]
      rw [List.nil_append]
      exact this
  | some s =>
      by_cases hem : s ≠ "" ∧ isScriptClass cn
      · obtain ⟨f1, hf1, rfl⟩ : ∃ f1, 6 * propCount props + 2 ≤ f1 ∧ f = f1 + 6 := by
          refine ⟨f - 6, ?_, ?_⟩ <;>
            (simp only [emittedLines, propCount, if_pos hem] at hf ⊢; omega)
        have hterm := hcd s rfl hem
        have hmid := cdataBody_parse s.data hterm (f1 + 1)
          ("ProtectedString".data ++ '>'
            :: ('\n' :: ((propsSection (indD d) props).data
              ++ ((indD d).data ++ (' ' :: ' ' :: ('<' :: '/' :: rest))))))
        have hwfa : wfAttrs [("name", "Source")] := by
          intro p hp
          rw [List.mem_singleton] at hp
          subst hp
          refine ⟨show ("name" : String) ≠ "" by decide, ?_, ?_⟩
          · intro c hc; fin_cases hc <;> rfl
          · intro c hc; fin_cases hc <;> exact ⟨by decide, by decide, by decide⟩
        have he := parseElem_mk (f1 + 3) "ProtectedString" (by decide)
          (by intro c hc; fin_cases hc <;> rfl) [("name", "Source")] hwfa
          _ _ _ hmid
        have hcont := propsOption_seq d props hps (f1 + 4) (by omega) rest
        have helemstep := pcStep_elem (f1 + 4) _ _ _ _ _ he hcont rfl rfl rfl rfl
        have hparse := sepStep (f1 + 5) d [' ', ' ', ' ', ' ']
          (by intro c hc; fin_cases hc <;> rfl) _ _ _ helemstep
        rw [sepNode_add2 d] at hparse
        rw [show sourceLine (indD d) cn (some s)
            = if s ≠ "" ∧ isScriptClass cn then
                indD d ++ "    <ProtectedString name=\"Source\"><![CDATA[" ++ s
                  ++ "]]></ProtectedString>\n"
              else "" from rfl,
          if_pos hem,
          show srcDoms d cn (some s)
            = if s ≠ "" ∧ isScriptClass cn then
                [sepL (d + 2), .elem "ProtectedString" [("name", "Source")] [.text s]]
              else [] from rfl,
          if_pos hem]
        simp only [litD1, litD2, litD3, litD4, litD5, litD6, litD7, litD8, litD9,
          litD10, litD11, litD12, litD13, litD14, litD15, litD16, litD17, litD18,
          litD19, litD20, litD21, litD22, litD23, litD24, litD25, litD26, litD27,
          litD28, litD29, litD30, litD31, litD32, litD33, litD34, litD35, litD36,
          litD37, litD38, litD39, litD40, litD41, litD42, litD43, litD44, litD45,
          litD46, litD47, litD48,
          strData_append, renderAttrs, escL, propDom, List.flatMap_cons,
          List.flatMap_nil, List.cons_append, List.append_assoc, List.nil_append,
          List.append_nil] at hparse ⊢
        exact hparse
      · have := propsOption_seq d props hps f
          (by simp only [emittedLines, propCount, if_neg hem] at hf ⊢; omega) rest
        rw [show sourceLine (indD d) cn (some s)
            = if s ≠ "" ∧ isScriptClass cn then
                indD d ++ "    <ProtectedString name=\"Source\"><![CDATA[" ++ s
                  ++ "]]></ProtectedString>\n"
              else "" from rfl,
          if_neg hem,
          show srcDoms d cn (some s)
            = if s ≠ "" ∧ isScriptClass cn then
                [sepL (d + 2), .elem "ProtectedString" [("name", "Source")] [.text s]]
              else [] from rfl,
          if_neg hem]
        rw [List.nil_append]
        exact this

theorem genItem_data' (rng : Nat → Nat) (t : RobloxAsset) (d k : Nat) :
    (generateItem rng t d k).1 = indD d ++ itemBody rng t d k := by
  cases t with
  | mk i nm cn src kids props => exact genItem_data rng i nm cn src kids props d k

theorem sepNode_nil (d : Nat) :
    XNode.text ⟨'\n' :: ((indD d).data ++ [])⟩ = XNode.text ("\n" ++ indD d) := by
  apply congrArg
  apply String.ext
  show '\n' :: ((indD d).data ++ []) = '\n' :: (indD d).data
  rw [List.append_nil]

/-- A serialized item body begins with `<` followed by a character that
triggers none of the other content-dispatch branches. -/
theorem itemBody_head (rng : Nat → Nat) (t : RobloxAsset) (d k : Nat) :
    ∃ tl, (itemBody rng t d k).data = '<' :: tl
      ∧ ∀ X : List Char, hd1 (tl ++ X) '/' = false
        ∧ List.isPrefixOf "![CDATA[".data (tl ++ X) = false
        ∧ hd1 (tl ++ X) '!' = false ∧ hd1 (tl ++ X) '?' = false := by
  cases t with
  | mk i nm cn src kids props =>
      exact ⟨_, rfl, fun X => ⟨rfl, rfl, rfl, rfl⟩⟩

/-- Parsing the serialized children sequence of a node at depth `d`:
each child contributes its separator text run and its item element, and
the trailing run before the closing tag becomes one more text node. -/
theorem kidsSeq (rng : Nat → Nat) (d : Nat) :
    ∀ kids : List RobloxAsset, safeTreeList kids = true →
      (∀ c ∈ kids, safeTree c = true → ∀ d' k' f' rest', needT c ≤ f' →
        parseElem f' ((itemBody rng c d' k').data ++ rest')
          = some (encDom rng c d' k', '\n' :: rest')) →
      ∀ k f rest, needTList kids + 2 ≤ f →
        parseContent f
            ('\n' :: ((generateChildren rng kids (d + 1) k).1.data
              ++ ((indD d).data ++ ('<' :: '/' :: rest))))
          = some (encDomKids rng kids d k ++ [XNode.text ("\n" ++ indD d)],
              '<' :: '/' :: rest) := by
  intro kids
  induction kids with
  | nil =>
      intro _ _ k f rest hf
      obtain ⟨f2, rfl⟩ : ∃ f2, f = f2 + 2 := ⟨f - 2, by omega⟩
      have h0 := sepStep (f2 + 1) d [] (by intro c hc; simp at hc)
        ('/' :: rest) [] ('<' :: '/' :: rest) (pcStep_stop f2 rest)
      rw [sepNode_nil d] at h0
      exact h0
  | cons c cs ihcs =>
      intro hsafe ih k f rest hf
      obtain ⟨f1, rfl⟩ : ∃ f1, f = f1 + 2 := ⟨f - 2, by omega⟩
      have hsc : safeTree c = true := by
        simp only [safeTreeList, Bool.and_eq_true] at hsafe; exact hsafe.1
      have hscs : safeTreeList cs = true := by
        simp only [safeTreeList, Bool.and_eq_true] at hsafe; exact hsafe.2
      have hfc : needT c ≤ f1 := by
        simp only [needTList] at hf; omega
      have hfcs : needTList cs + 2 ≤ f1 := by
        simp only [needTList] at hf; omega
      cases hg1 : generateItem rng c (d + 1) k with
      | mk s1 k1 =>
          have hk1 : k1 = k + numNodes c := by
            have := generateItem_counter rng c (d + 1) k
            rw [hg1] at this
            exact this
          subst hk1
          cases hg2 : generateChildren rng cs (d + 1) (k + numNodes c) with
          | mk s2 k2 =>
              have hs1 : s1 = indD (d + 1) ++ itemBody rng c (d + 1) k := by
                have := genItem_data' rng c (d + 1) k
                rw [hg1] at this
                exact this
              have hcont := ihcs hscs
                (fun x hx => ih x (List.mem_cons_of_mem c hx))
                (k + numNodes c) f1 rest hfcs
              rw [hg2] at hcont
              rw [show ((s2, k2) : String × Nat).1 = s2 from rfl] at hcont
              have hchild := ih c (List.mem_cons_self c cs) hsc (d + 1) k f1
                (s2.data ++ ((indD d).data ++ ('<' :: '/' :: rest))) hfc
              obtain ⟨tl, htl, hconds⟩ := itemBody_head rng c (d + 1) k
              rw [htl, List.cons_append] at hchild
              obtain ⟨hc1, hc2, hc3, hc4⟩ :=
                hconds (s2.data ++ ((indD d).data ++ ('<' :: '/' :: rest)))
              have hstep := pcStep_elem f1 _ _ _ _ _ hchild hcont hc1 hc2 hc3 hc4
              have hsep := sepStep (f1 + 1) d [' ', ' ']
                (by intro x hx; fin_cases hx <;> rfl) _ _ _ hstep
              rw [sepNode_succ d] at hsep
              have hgc : generateChildren rng (c :: cs) (d + 1) k = (s1 ++ s2, k2) := by
                simp only [generateChildren, hg1, hg2]
              rw [hgc, show ((s1 ++ s2, k2) : String × Nat).1 = s1 ++ s2 from rfl, hs1]
              simp only [encDomKids, htl, indD_succ_data, strData_append,
                List.cons_append, List.append_assoc, List.nil_append] at hsep ⊢
              exact hsep

theorem propLine_len (ind : String) (p : String × PropVal)
    (hp : p.2 ≠ PropVal.pother) : 6 ≤ (propLine ind p).data.length := by
  rcases p with ⟨n, v⟩
  cases v with
  | pstr v =>
      simp [propLine, strData_append, List.length_append]
      omega
  | pnum v =>
      simp [propLine, strData_append, List.length_append]
      omega
  | pbool v =>
      simp [propLine, strData_append, List.length_append]
      omega
  | pother => exact absurd rfl hp

theorem propLines_len (ind : String) :
    ∀ ps : List (String × PropVal),
      6 * (ps.filter (fun p => decide (p.2 ≠ PropVal.pother))).length
        ≤ (String.join (ps.map (propLine ind))).data.length := by
  intro ps
  induction ps with
  | nil => simp
  | cons p ps ihp =>
      rw [List.map_cons, strJoin_cons, strData_append, List.length_append,
        List.filter_cons]
      by_cases hp : p.2 = PropVal.pother
      · rw [if_neg (by simp [hp])]
        omega
      · have h6 := propLine_len ind p hp
        rw [if_pos (by simpa using hp)]
        simp only [List.length_cons]
        omega

theorem sourceLine_len (ind cn s : String) :
    6 * (if s ≠ "" ∧ isScriptClass cn then 1 else 0)
      ≤ (sourceLine ind cn (some s)).data.length := by
  have hsl : sourceLine ind cn (some s)
      = if s ≠ "" ∧ isScriptClass cn then
          ind ++ "    <ProtectedString name=\"Source\"><![CDATA[" ++ s
            ++ "]]></ProtectedString>\n"
        else "" := rfl
  by_cases hem : s ≠ "" ∧ isScriptClass cn
  · rw [hsl, if_pos hem, if_pos hem]
    simp [strData_append, List.length_append]
    omega
  · rw [hsl, if_neg hem, if_neg hem]
    simp

theorem emitted_le_len (ind cn : String) (src : Option String)
    (props : Option (List (String × PropVal))) :
    6 * emittedLines cn src props
      ≤ (sourceLine ind cn src).data.length
        + (propsSection ind props).data.length := by
  cases src with
  | none =>
      cases props with
      | none => simp [emittedLines]
      | some ps =>
          have h := propLines_len ind ps
          simp only [emittedLines, propsSection]
          rw [show sourceLine ind cn none = "" from rfl]
          simpa using h
  | some s =>
      have h1 := sourceLine_len ind cn s
      cases props with
      | none =>
          simp only [emittedLines, propsSection]
          omega
      | some ps =>
          have h2 := propLines_len ind ps
          simp only [emittedLines, propsSection]
          omega

theorem needTList_le_gen (rng : Nat → Nat) :
    ∀ kids : List RobloxAsset,
      (∀ c ∈ kids, ∀ d' k', needT c + 2 ≤ (itemBody rng c d' k').data.length) →
      ∀ d k, needTList kids ≤ ((generateChildren rng kids d k).1).data.length := by
  intro kids
  induction kids with
  | nil => intro _ d k; simp [generateChildren, needTList]
  | cons c cs ihcs =>
      intro ih d k
      cases hg1 : generateItem rng c d k with
      | mk s1 k1 =>
          cases hg2 : generateChildren rng cs d k1 with
          | mk s2 k2 =>
              have hs1 : s1 = indD d ++ itemBody rng c d k := by
                have := genItem_data' rng c d k
                rw [hg1] at this
                exact this
              have h1 := ih c (List.mem_cons_self c cs) d k
              have h2 := ihcs (fun x hx => ih x (List.mem_cons_of_mem c hx)) d k1
              rw [hg2] at h2
              rw [show ((s2, k2) : String × Nat).1 = s2 from rfl] at h2
              have hgc : generateChildren rng (c :: cs) d k = (s1 ++ s2, k2) := by
                simp only [generateChildren, hg1, hg2]
              rw [hgc, show ((s1 ++ s2, k2) : String × Nat).1 = s1 ++ s2 from rfl]
              rw [hs1]
              simp only [needTList, strData_append, List.length_append]
              have hind : 2 ≤ (indD d).data.length := by
                simp only [indD, strRepeat_data, List.length_replicate]
                omega
              omega

theorem needT_le_itemBody (rng : Nat → Nat) :
    ∀ t d k, needT t + 2 ≤ (itemBody rng t d k).data.length := by
  intro t
  induction t using RobloxAsset.inductionOn with
  | h i nm cn src kids props ih =>
      intro d k
      have hkids := needTList_le_gen rng kids (fun c hc => ih c hc) (d + 1) (k + 1)
      have hsp := emitted_le_len (indD d) cn src props
      simp only [indD] at hsp
      simp only [needT, itemBody, strData_append, List.length_append,
        List.length_cons, List.length_nil]
      omega

/-- Master serialization/parse lemma: the serialized item of a safe tree
parses to its expected DOM `encDom`, consuming exactly through the
closing tag. -/
theorem itemBody_parse (rng : Nat → Nat) :
    ∀ t, safeTree t = true → ∀ d k f rest, needT t ≤ f →
      parseElem f ((itemBody rng t d k).data ++ rest)
        = some (encDom rng t d k, '\n' :: rest) := by
  intro t
  induction t using RobloxAsset.inductionOn with
  | h i nm cn src kids props ih =>
      intro hsafe d k f rest hf
      simp only [safeTree, Bool.and_eq_true] at hsafe
      obtain ⟨⟨⟨hcn, hsrc⟩, hprops⟩, hkids⟩ := hsafe
      have hcd : ∀ s, src = some s → s ≠ "" ∧ isScriptClass cn →
          hasCDataTerm s.data = false := by
        intro s hs hem
        subst hs
        have h2 : (if s ≠ "" ∧ isScriptClass cn then !hasCDataTerm s.data
            else true) = true := hsrc
        rw [if_pos hem, Bool.not_eq_true'] at h2
        exact h2
      have hps : ∀ ps, props = some ps → ∀ p ∈ ps, safeAttrB p.1 = true := by
        intro ps hp p hpp
        subst hp
        have h2 : ps.all (fun p => safeAttrB p.1) = true := hprops
        exact List.all_eq_true.mp h2 p hpp
      obtain ⟨fA, rfl⟩ : ∃ fA, f = fA + 9 := by
        refine ⟨f - 9, ?_⟩
        simp only [needT] at hf
        omega
      have hwfName : wfAttrs [("name", "Name")] := by
        intro p hp
        rw [List.mem_singleton] at hp
        subst hp
        refine ⟨show ("name" : String) ≠ "" by decide, ?_, ?_⟩
        · intro c hc; fin_cases hc <;> rfl
        · intro c hc; fin_cases hc <;> exact ⟨by decide, by decide, by decide⟩
      have hwfItem : wfAttrs
          [("class", cn), ("referent", "RBX" ++ Nat.repr (rng k % 100000000))] := by
        intro p hp
        rcases List.mem_cons.mp hp with rfl | hp
        · refine ⟨show ("class" : String) ≠ "" by decide, ?_,
            safeAttrB_safeAttrL cn hcn⟩
          intro c hc; fin_cases hc <;> rfl
        · rw [List.mem_singleton] at hp
          subst hp
          refine ⟨show ("referent" : String) ≠ "" by decide, ?_,
            referent_safeAttr (rng k % 100000000)⟩
          intro c hc; fin_cases hc <;> rfl
      have hnmid := escBody_parse nm.data fA
        ("string".data ++ '>'
          :: ('\n' :: ((sourceLine (indD d) cn src).data
            ++ ((propsSection (indD d) props).data
              ++ ((indD d).data ++ (' ' :: ' '
                :: ('<' :: '/' :: ("Properties".data ++ '>'
                  :: ('\n' :: ((generateChildren rng kids (d + 1) (k + 1)).1.data
                    ++ ((indD d).data ++ ('<' :: '/'
                      :: ("Item".data ++ '>' :: '\n' :: rest)))))))))))))
      have hname := parseElem_mk (fA + 2) "string" (by decide)
        (by intro c hc; fin_cases hc <;> rfl) [("name", "Name")] hwfName
        _ _ _ hnmid
      have hsp := srcProps_seq d cn src props hcd hps (fA + 3)
        (by simp only [needT] at hf; omega)
        ("Properties".data ++ '>'
          :: ('\n' :: ((generateChildren rng kids (d + 1) (k + 1)).1.data
            ++ ((indD d).data ++ ('<' :: '/' :: ("Item".data ++ '>' :: '\n' :: rest))))))
      have hstep1 := pcStep_elem (fA + 3) _ _ _ _ _ hname hsp rfl rfl rfl rfl
      have hsepPMID := sepStep (fA + 4) d [' ', ' ', ' ', ' ']
        (by intro x hx; fin_cases hx <;> rfl) _ _ _ hstep1
      rw [sepNode_add2 d] at hsepPMID
      have hPropsEl := parseElem_mk (fA + 5) "Properties" (by decide)
        (by intro c hc; fin_cases hc <;> rfl) [] (by intro p hp; simp at hp)
        _ _ _ hsepPMID
      have hkseq := kidsSeq rng d kids hkids ih (k + 1) (fA + 6)
        ("Item".data ++ '>' :: '\n' :: rest)
        (by simp only [needT] at hf; omega)
      have hstep2 := pcStep_elem (fA + 6) _ _ _ _ _ hPropsEl hkseq rfl rfl rfl rfl
      have hsepMID := sepStep (fA + 7) d [' ', ' ']
        (by intro x hx; fin_cases hx <;> rfl) _ _ _ hstep2
      rw [sepNode_succ d] at hsepMID
      have hItem := parseElem_mk (fA + 8) "Item" (by decide)
        (by intro c hc; fin_cases hc <;> rfl)
        [("class", cn), ("referent", "RBX" ++ Nat.repr (rng k % 100000000))]
        hwfItem _ _ _ hsepMID
      rw [txtOpt_eq nm] at hItem
      simp only [itemBody, encDom, indD, litD1, litD2, litD3, litD4, litD5, litD6,
        litD7, litD8, litD9, litD10, litD11, litD12, litD13, litD14, litD15, litD16,
        litD17, litD18, litD19, litD20, litD21, litD22, litD23, litD24, litD25,
        litD26, litD27, litD28, litD29, litD30, litD31, litD32, litD33, litD34,
        litD35, litD36, litD37, litD38, litD39, litD40, litD41, litD42, litD43,
        litD44, litD45, litD46, litD47, litD48,
        strData_append, escapeXml_data, renderAttrs, List.cons_append,
        List.append_assoc, List.nil_append, List.append_nil] at hItem ⊢
      exact hItem

theorem litD49 : ("xml version=\"1.0\" encoding=\"UTF-8\"" : String).data = 'x' :: 'm' :: 'l' :: ' ' :: 'v' :: 'e' :: 'r' :: 's' :: 'i' :: 'o' :: 'n' :: '=' :: '"' :: '1' :: '.' :: '0' :: '"' :: ' ' :: 'e' :: 'n' :: 'c' :: 'o' :: 'd' :: 'i' :: 'n' :: 'g' :: '=' :: '"' :: 'U' :: 'T' :: 'F' :: '-' :: '8' :: '"' :: ([] : List Char) := rfl

theorem indD0_data : (indD 0).data = ' ' :: ' ' :: ([] : List Char) := rfl

theorem textNull : XNode.text ⟨['n', 'u', 'l', 'l']⟩ = XNode.text "null" := rfl

theorem textNil : XNode.text ⟨['n', 'i', 'l']⟩ = XNode.text "nil" := rfl

theorem textNL : XNode.text ⟨['\n']⟩ = XNode.text "\n" := rfl

theorem scanPIEnd_append (P : List Char) (hP : ∀ c ∈ P, c ≠ '?') (X : List Char) :
    scanPIEnd (P ++ '?' :: '>' :: X) = some X := by
  induction P with
  | nil => simp [scanPIEnd, hd1]
  | cons c cs ih =>
      have hc := hP c (List.mem_cons_self c cs)
      simp only [List.cons_append, scanPIEnd]
      rw [if_neg (by simp [hc])]
      exact ih (fun x hx => hP x (List.mem_cons_of_mem c hx))

/-- Unfolding of `parseDoc` on a document with an XML prolog whose body
parses completely. -/
theorem parseDoc_build (P B : List Char) (hP : ∀ c ∈ P, c ≠ '?') (root : XNode)
    (hpe : parseElem
        (('<' :: '?' :: (P ++ '?' :: '>' :: ('\n' :: ('<' :: B)))).length + 1)
        ('<' :: B) = some (root, [])) :
    parseDoc ('<' :: '?' :: (P ++ '?' :: '>' :: ('\n' :: ('<' :: B)))) = some root := by
  have hscan := scanPIEnd_append P hP ('\n' :: ('<' :: B))
  have h0 : parseDoc ('<' :: '?' :: (P ++ '?' :: '>' :: ('\n' :: ('<' :: B))))
      = (match scanPIEnd (P ++ '?' :: '>' :: ('\n' :: ('<' :: B))) with
         | none => none
         | some cs2 =>
             match parseElem
                 (('<' :: '?' :: (P ++ '?' :: '>' :: ('\n' :: ('<' :: B)))).length + 1)
                 (skipWS cs2) with
             | some (root, r3) => if (skipWS r3).isEmpty then some root else none
             | none => none) := rfl
  rw [h0]
  simp only [hscan]
  rw [skipWS_cons_wsT '\n' (by decide), skipWS_cons_not_ws '<' (by decide), hpe]
  rfl

set_option maxRecDepth 40000 in
/-- The whole serialized document of a safe tree parses to `encRoot`:
prolog, root element, the two `External` elements and the item, with no
trailing content. -/
theorem buildRbxmx_dom (rng : Nat → Nat) (t : RobloxAsset)
    (hsafe : safeTree t = true) :
    parseXmlDoc (buildRbxmx rng t) = some (encRoot rng t) := by
  obtain ⟨tl, htl, hconds⟩ := itemBody_head rng t 0 0
  have hlb := needT_le_itemBody rng t 0 0
  have hlen : (itemBody rng t 0 0).data.length = tl.length + 1 := by
    rw [htl]; rfl
  obtain ⟨g, hg9, hgn⟩ : ∃ g,
      ('<' :: '?' :: (("xml version=\"1.0\" encoding=\"UTF-8\"" : String).data ++ '?' :: '>' :: ('\n' :: ('<' :: ("roblox".data ++ (renderAttrs [("xmlns:xmime", "http://www.w3.org/2005/05/xmlmime"), ("xmlns:xsi", "http://www.w3.org/2001/XMLSchema-instance"), ("xsi:noNamespaceSchemaLocation", "http://www.roblox.com/roblox.xsd"), ("version", "4")] ++ '>' :: ('\n' :: ((indD 0).data ++ ([] ++ ('<' :: ("External".data ++ (renderAttrs [] ++ '>' :: (['n', 'u', 'l', 'l'] ++ '<' :: '/' :: ("External".data ++ '>' :: ('\n' :: ((indD 0).data ++ ([] ++ ('<' :: ("External".data ++ (renderAttrs [] ++ '>' :: (['n', 'i', 'l'] ++ '<' :: '/' :: ("External".data ++ '>' :: ('\n' :: ((indD 0).data ++ ([] ++ ('<' :: (tl ++ ('<' :: '/' :: ("roblox".data ++ '>' :: ([] : List Char)))))))))))))))))))))))))))))).length + 1
        = g + 9 ∧ needT t ≤ g + 2 := by
    refine ⟨('<' :: '?' :: (("xml version=\"1.0\" encoding=\"UTF-8\"" : String).data ++ '?' :: '>' :: ('\n' :: ('<' :: ("roblox".data ++ (renderAttrs [("xmlns:xmime", "http://www.w3.org/2005/05/xmlmime"), ("xmlns:xsi", "http://www.w3.org/2001/XMLSchema-instance"), ("xsi:noNamespaceSchemaLocation", "http://www.roblox.com/roblox.xsd"), ("version", "4")] ++ '>' :: ('\n' :: ((indD 0).data ++ ([] ++ ('<' :: ("External".data ++ (renderAttrs [] ++ '>' :: (['n', 'u', 'l', 'l'] ++ '<' :: '/' :: ("External".data ++ '>' :: ('\n' :: ((indD 0).data ++ ([] ++ ('<' :: ("External".data ++ (renderAttrs [] ++ '>' :: (['n', 'i', 'l'] ++ '<' :: '/' :: ("External".data ++ '>' :: ('\n' :: ((indD 0).data ++ ([] ++ ('<' :: (tl ++ ('<' :: '/' :: ("roblox".data ++ '>' :: ([] : List Char)))))))))))))))))))))))))))))).length - 8,
      ?_, ?_⟩ <;>
      (simp only [litD37, litD38, litD41, litD42, litD43, litD44, litD45, litD46,
         litD47, litD48, litD49, indD0_data, renderAttrs, List.cons_append,
         List.append_assoc, List.nil_append, List.length_cons, List.length_append,
         List.length_nil]
       omega)
  have hstop := pcStep_stop g ("roblox".data ++ '>' :: ([] : List Char))
  have htT : takeText ('\n' :: ('<' :: '/' :: ("roblox".data ++ '>' :: ([] : List Char))))
      = some (['\n'], '<' :: '/' :: ("roblox".data ++ '>' :: ([] : List Char))) := by
    have h := takeText_append_plain ['\n'] (by decide)
      ('/' :: ("roblox".data ++ '>' :: ([] : List Char)))
    simpa using h
  have htxtNL := pcStep_text (g + 1) '\n' (by decide)
    ('<' :: '/' :: ("roblox".data ++ '>' :: ([] : List Char))) ['\n'] ('<' :: '/' :: ("roblox".data ++ '>' :: ([] : List Char)))
    htT [] ('<' :: '/' :: ("roblox".data ++ '>' :: ([] : List Char))) hstop
  rw [textNL] at htxtNL
  have hitem := itemBody_parse rng t hsafe 0 0 (g + 2)
    ('<' :: '/' :: ("roblox".data ++ '>' :: ([] : List Char))) hgn
  rw [htl, List.cons_append] at hitem
  have hitemstep := pcStep_elem (g + 2) _ _ _ _ _ hitem htxtNL
    (hconds ('<' :: '/' :: ("roblox".data ++ '>' :: ([] : List Char)))).1 (hconds ('<' :: '/' :: ("roblox".data ++ '>' :: ([] : List Char)))).2.1
    (hconds ('<' :: '/' :: ("roblox".data ++ '>' :: ([] : List Char)))).2.2.1 (hconds ('<' :: '/' :: ("roblox".data ++ '>' :: ([] : List Char)))).2.2.2
  have hsep3 := sepStep (g + 3) 0 [] (by simp) _ _ _ hitemstep
  rw [sepNode_nil 0] at hsep3
  have hnil := plainBody_parse ['n', 'i', 'l'] (by decide) (by decide) (g + 1)
    ("External".data ++ '>' :: ('\n' :: ((indD 0).data ++ ([] ++ ('<' :: (tl ++ ('<' :: '/' :: ("roblox".data ++ '>' :: ([] : List Char)))))))))
  rw [textNil] at hnil
  have hext2 := parseElem_mk (g + 3) "External" (by decide) (by decide) []
    (by intro p hp; simp at hp) _ _ _ hnil
  have hext2step := pcStep_elem (g + 4) _ _ _ _ _ hext2 hsep3 rfl rfl rfl rfl
  have hsep2 := sepStep (g + 5) 0 [] (by simp) _ _ _ hext2step
  rw [sepNode_nil 0] at hsep2
  have hnull := plainBody_parse ['n', 'u', 'l', 'l'] (by decide) (by decide) (g + 3)
    ("External".data ++ '>' :: ('\n' :: ((indD 0).data ++ ([] ++ ('<' :: ("External".data ++ (renderAttrs [] ++ '>' :: (['n', 'i', 'l'] ++ '<' :: '/' :: ("External".data ++ '>' :: ('\n' :: ((indD 0).data ++ ([] ++ ('<' :: (tl ++ ('<' :: '/' :: ("roblox".data ++ '>' :: ([] : List Char)))))))))))))))))
  rw [textNull] at hnull
  have hext1 := parseElem_mk (g + 5) "External" (by decide) (by decide) []
    (by intro p hp; simp at hp) _ _ _ hnull
  have hext1step := pcStep_elem (g + 6) _ _ _ _ _ hext1 hsep2 rfl rfl rfl rfl
  have hsep1 := sepStep (g + 7) 0 [] (by simp) _ _ _ hext1step
  rw [sepNode_nil 0] at hsep1
  have hwfRoot : wfAttrs [("xmlns:xmime", "http://www.w3.org/2005/05/xmlmime"), ("xmlns:xsi", "http://www.w3.org/2001/XMLSchema-instance"), ("xsi:noNamespaceSchemaLocation", "http://www.roblox.com/roblox.xsd"), ("version", "4")] := by
    intro p hp
    fin_cases hp <;>
      exact ⟨by decide, by decide, by (simp only [safeAttrL]; decide)⟩
  have hroblox := parseElem_mk (g + 8) "roblox" (by decide) (by decide)
    [("xmlns:xmime", "http://www.w3.org/2005/05/xmlmime"), ("xmlns:xsi", "http://www.w3.org/2001/XMLSchema-instance"), ("xsi:noNamespaceSchemaLocation", "http://www.roblox.com/roblox.xsd"), ("version", "4")] hwfRoot _ _ _ hsep1
  have hpe : parseElem
      (('<' :: '?' :: (("xml version=\"1.0\" encoding=\"UTF-8\"" : String).data ++ '?' :: '>' :: ('\n' :: ('<' :: ("roblox".data ++ (renderAttrs [("xmlns:xmime", "http://www.w3.org/2005/05/xmlmime"), ("xmlns:xsi", "http://www.w3.org/2001/XMLSchema-instance"), ("xsi:noNamespaceSchemaLocation", "http://www.roblox.com/roblox.xsd"), ("version", "4")] ++ '>' :: ('\n' :: ((indD 0).data ++ ([] ++ ('<' :: ("External".data ++ (renderAttrs [] ++ '>' :: (['n', 'u', 'l', 'l'] ++ '<' :: '/' :: ("External".data ++ '>' :: ('\n' :: ((indD 0).data ++ ([] ++ ('<' :: ("External".data ++ (renderAttrs [] ++ '>' :: (['n', 'i', 'l'] ++ '<' :: '/' :: ("External".data ++ '>' :: ('\n' :: ((indD 0).data ++ ([] ++ ('<' :: (tl ++ ('<' :: '/' :: ("roblox".data ++ '>' :: ([] : List Char)))))))))))))))))))))))))))))).length + 1)
      ('<' :: ("roblox".data ++ (renderAttrs [("xmlns:xmime", "http://www.w3.org/2005/05/xmlmime"), ("xmlns:xsi", "http://www.w3.org/2001/XMLSchema-instance"), ("xsi:noNamespaceSchemaLocation", "http://www.roblox.com/roblox.xsd"), ("version", "4")] ++ '>' :: ('\n' :: ((indD 0).data ++ ([] ++ ('<' :: ("External".data ++ (renderAttrs [] ++ '>' :: (['n', 'u', 'l', 'l'] ++ '<' :: '/' :: ("External".data ++ '>' :: ('\n' :: ((indD 0).data ++ ([] ++ ('<' :: ("External".data ++ (renderAttrs [] ++ '>' :: (['n', 'i', 'l'] ++ '<' :: '/' :: ("External".data ++ '>' :: ('\n' :: ((indD 0).data ++ ([] ++ ('<' :: (tl ++ ('<' :: '/' :: ("roblox".data ++ '>' :: ([] : List Char))))))))))))))))))))))))))) = some (encRoot rng t, []) := by
    rw [hg9]
    exact hroblox
  have hdoc := parseDoc_build (("xml version=\"1.0\" encoding=\"UTF-8\"" : String).data) ("roblox".data ++ (renderAttrs [("xmlns:xmime", "http://www.w3.org/2005/05/xmlmime"), ("xmlns:xsi", "http://www.w3.org/2001/XMLSchema-instance"), ("xsi:noNamespaceSchemaLocation", "http://www.roblox.com/roblox.xsd"), ("version", "4")] ++ '>' :: ('\n' :: ((indD 0).data ++ ([] ++ ('<' :: ("External".data ++ (renderAttrs [] ++ '>' :: (['n', 'u', 'l', 'l'] ++ '<' :: '/' :: ("External".data ++ '>' :: ('\n' :: ((indD 0).data ++ ([] ++ ('<' :: ("External".data ++ (renderAttrs [] ++ '>' :: (['n', 'i', 'l'] ++ '<' :: '/' :: ("External".data ++ '>' :: ('\n' :: ((indD 0).data ++ ([] ++ ('<' :: (tl ++ ('<' :: '/' :: ("roblox".data ++ '>' :: ([] : List Char)))))))))))))))))))))))))) (by decide) (encRoot rng t) hpe
  have hcs : (buildRbxmx rng t).data
      = '<' :: '?' :: (("xml version=\"1.0\" encoding=\"UTF-8\"" : String).data ++ '?' :: '>' :: ('\n' :: ('<' :: ("roblox".data ++ (renderAttrs [("xmlns:xmime", "http://www.w3.org/2005/05/xmlmime"), ("xmlns:xsi", "http://www.w3.org/2001/XMLSchema-instance"), ("xsi:noNamespaceSchemaLocation", "http://www.roblox.com/roblox.xsd"), ("version", "4")] ++ '>' :: ('\n' :: ((indD 0).data ++ ([] ++ ('<' :: ("External".data ++ (renderAttrs [] ++ '>' :: (['n', 'u', 'l', 'l'] ++ '<' :: '/' :: ("External".data ++ '>' :: ('\n' :: ((indD 0).data ++ ([] ++ ('<' :: ("External".data ++ (renderAttrs [] ++ '>' :: (['n', 'i', 'l'] ++ '<' :: '/' :: ("External".data ++ '>' :: ('\n' :: ((indD 0).data ++ ([] ++ ('<' :: (tl ++ ('<' :: '/' :: ("roblox".data ++ '>' :: ([] : List Char))))))))))))))))))))))))))))) := by
    simp only [buildRbxmx]
    rw [genItem_data' rng t 0 0]
    simp only [litD20, litD21, litD22, litD23, litD24, litD37, litD38, litD39,
      litD40, litD41, litD42, litD43, litD44, litD45, litD46, litD47, litD48,
      litD49, indD0_data, htl, strData_append, renderAttrs, List.cons_append,
      List.append_assoc, List.nil_append]
  show parseDoc (buildRbxmx rng t).data = some (encRoot rng t)
  rw [hcs]
  exact hdoc

theorem encDom_elem (rng : Nat → Nat) (t : RobloxAsset) (d k : Nat) :
    ∃ as ks, encDom rng t d k = .elem "Item" as ks := by
  cases t with
  | mk i nm cn src kids props => exact ⟨_, _, rfl⟩

/-- `document.querySelector("Item")` on a serialized document finds the
root item: the `roblox` root and the `External` elements are passed
over. -/
theorem qselItemIn_encRoot (rng : Nat → Nat) (t : RobloxAsset) :
    qselItemIn (encRoot rng t) = some (encDom rng t 0 0) := by
  obtain ⟨as, ks, he⟩ := encDom_elem rng t 0 0
  simp [encRoot, qselItemIn, qselItemList, he]

theorem strAppend_empty (s : String) : s ++ "" = s := by
  apply String.ext
  rw [strData_append]
  exact List.append_nil _

theorem textContent_txtOpt (tg : String) (ats : List (String × String))
    (v : String) : textContent (.elem tg ats (txtOpt v)) = v := by
  by_cases hv : v = ""
  · subst hv; rfl
  · show textContentList (txtOpt v) = v
    rw [show txtOpt v = [.text v] from by simp [txtOpt, hv]]
    show v ++ "" = v
    exact strAppend_empty v

theorem qselPCList_cons_text (p c a pt s : String) (xs : List XNode) :
    qselPCList p c a pt (.text s :: xs) = qselPCList p c a pt xs := by
  simp [qselPCList, qselPC, matchPC, XNode.isElemB]

theorem qselPCList_txtOpt (p c a pt : String) (v : String) :
    qselPCList p c a pt (txtOpt v) = none := by
  by_cases hv : v = ""
  · subst hv; rfl
  · rw [show txtOpt v = [.text v] from by simp [txtOpt, hv]]
    rfl

/-- The `Name` query of `extractItem` on a serialized item's child list
finds the serialized `Name` element (the search never reaches the nested
child items). -/
theorem qsel_name (d : Nat) (nm : String) (X Y : List XNode) :
    qselPCList "Properties" "string" "Name" "Item"
        (sepL (d + 1)
          :: XNode.elem "Properties" []
               (sepL (d + 2) :: XNode.elem "string" [("name", "Name")] (txtOpt nm)
                 :: X)
          :: Y)
      = some (.elem "string" [("name", "Name")] (txtOpt nm)) := by
  simp [qselPCList, qselPC, matchPC, XNode.isElemB, XNode.tagOf, XNode.attrsOf,
    getAttr, sepL]

/-- The `Source` query of `extractItem` on a serialized item that emits a
source line finds the serialized `ProtectedString` element. -/
theorem qsel_src (d : Nat) (nm s : String) (R Y : List XNode) :
    qselPCList "Properties" "ProtectedString" "Source" "Item"
        (sepL (d + 1)
          :: XNode.elem "Properties" []
               (sepL (d + 2) :: XNode.elem "string" [("name", "Name")] (txtOpt nm)
                 :: (sepL (d + 2)
                   :: XNode.elem "ProtectedString" [("name", "Source")] [.text s]
                   :: R))
          :: Y)
      = some (.elem "ProtectedString" [("name", "Source")] [.text s]) := by
  simp [qselPCList, qselPC, matchPC, XNode.isElemB, XNode.tagOf, XNode.attrsOf,
    getAttr, sepL, qselPCList_txtOpt]

theorem textContent_single (tg : String) (ats : List (String × String))
    (s : String) : textContent (.elem tg ats [.text s]) = s := by
  show s ++ "" = s
  exact strAppend_empty s

theorem extract_kids (rng : Nat → Nat) :
    ∀ kidsL : List RobloxAsset,
      (∀ c ∈ kidsL, ∀ d' k' n', rtOK c (extractItem (encDom rng c d' k') n').1 = true) →
      ∀ d k n w, rtOKList kidsL
          (extractChildren (encDomKids rng kidsL d k ++ [XNode.text w]) n).1 = true := by
  intro kidsL
  induction kidsL with
  | nil =>
      intro _ d k n w
      simp [encDomKids, extractChildren, isItemElem, rtOKList]
  | cons c cs ihc =>
      intro ih d k n w
      obtain ⟨as2, ks2, he⟩ := encDom_elem rng c (d + 1) k
      simp only [encDomKids, List.cons_append]
      rw [show extractChildren
          (sepL (d + 1) :: encDom rng c (d + 1) k
            :: (encDomKids rng cs d (k + numNodes c) ++ [XNode.text w])) n
          = extractChildren
            (encDom rng c (d + 1) k
              :: (encDomKids rng cs d (k + numNodes c) ++ [XNode.text w])) n from by
        simp [extractChildren, isItemElem, sepL]]
      rw [he]
      have h1 : rtOK c (extractItem (XNode.elem "Item" as2 ks2) n).1 = true := by
        have := ih c (List.mem_cons_self c cs) (d + 1) k n
        rw [he] at this
        exact this
      have h2 : rtOKList cs
          (extractChildren (encDomKids rng cs d (k + numNodes c) ++ [XNode.text w])
            (extractItem (XNode.elem "Item" as2 ks2) n).2).1 = true :=
        ihc (fun x hx => ih x (List.mem_cons_of_mem c hx))
          d (k + numNodes c) (extractItem (XNode.elem "Item" as2 ks2) n).2 w
      rw [show extractChildren
          (XNode.elem "Item" as2 ks2
            :: (encDomKids rng cs d (k + numNodes c) ++ [XNode.text w])) n
          = ((extractItem (XNode.elem "Item" as2 ks2) n).1
              :: (extractChildren
                  (encDomKids rng cs d (k + numNodes c) ++ [XNode.text w])
                  (extractItem (XNode.elem "Item" as2 ks2) n).2).1,
             (extractChildren
                 (encDomKids rng cs d (k + numNodes c) ++ [XNode.text w])
                 (extractItem (XNode.elem "Item" as2 ks2) n).2).2) from by
        simp [extractChildren, isItemElem]]
      simp [rtOKList, h1, h2]

/-- Decoding the DOM of a serialized item yields a node that stands in
the round-trip relation with the source node. -/
theorem rt_extract (rng : Nat → Nat) :
    ∀ t d k n, rtOK t (extractItem (encDom rng t d k) n).1 = true := by
  intro t
  induction t using RobloxAsset.inductionOn with
  | h i nm cn src kids props ih =>
      intro d k n
      simp only [encDom]
      cases hE : extractChildren
          (sepL (d + 1)
            :: XNode.elem "Properties" []
                 (sepL (d + 2)
                   :: XNode.elem "string" [("name", "Name")] (txtOpt nm)
                   :: (srcDoms d cn src ++ propsDoms d props ++ [sepL (d + 1)]))
            :: (encDomKids rng kids d (k + 1) ++ [XNode.text ("\n" ++ indD d)])) n with
      | mk ks2 n1 =>
          have hkids : rtOKList kids ks2 = true := by
            have hstep : extractChildren
                (sepL (d + 1)
                  :: XNode.elem "Properties" []
                       (sepL (d + 2)
                         :: XNode.elem "string" [("name", "Name")] (txtOpt nm)
                         :: (srcDoms d cn src ++ propsDoms d props ++ [sepL (d + 1)]))
                  :: (encDomKids rng kids d (k + 1)
                    ++ [XNode.text ("\n" ++ indD d)])) n
                = extractChildren
                    (encDomKids rng kids d (k + 1)
                      ++ [XNode.text ("\n" ++ indD d)]) n := by
              simp [extractChildren, isItemElem, sepL]
            have := extract_kids rng kids (fun c hc => ih c hc) d (k + 1) n
              ("\n" ++ indD d)
            rw [← hstep, hE] at this
            exact this
          simp only [extractItem, hE]
          simp only [qsel_name, textContent_txtOpt,
            show getAttr "class" [("class", cn),
                ("referent", "RBX" ++ Nat.repr (rng k % 100000000))] = some cn
              from by simp [getAttr]]
          cases src with
          | none =>
              simp [rtOK, hkids]
          | some s =>
              by_cases hem : s ≠ "" ∧ isScriptClass cn
              · rw [show srcDoms d cn (some s)
                    = if s ≠ "" ∧ isScriptClass cn then
                        [sepL (d + 2),
                          .elem "ProtectedString" [("name", "Source")] [.text s]]
                      else [] from rfl,
                  if_pos hem]
                simp only [List.cons_append, List.nil_append]
                simp only [qsel_src, textContent_single, if_neg hem.1]
                simp [rtOK, hkids, if_pos hem]
              · simp [rtOK, hkids, if_neg hem]

/-- Decoding a serialized safe tree succeeds and returns the extraction
of the serialized item's DOM. -/
theorem parseRbxmx_build (rng : Nat → Nat) (t : RobloxAsset)
    (hsafe : safeTree t = true) :
    parseRbxmx (buildRbxmx rng t) = .ok (extractItem (encDom rng t 0 0) 0).1 := by
  simp only [parseRbxmx, buildRbxmx_dom rng t hsafe, qselItemIn_encRoot]

set_option maxRecDepth 40000 in
/-- Counterexample to claim C1 as stated: a tree whose root has the empty
name decodes to a root named `Unnamed`, not to one with the same name
(the claim allows a fallback only for `className`, not for `name`). -/
theorem claim_C1_counterexample :
    parseRbxmx (buildRbxmx (fun _ => 0) (.mk "i" "" "Folder" none [] none))
      = .ok (.mk "uuid-0" "Unnamed" "Folder" none [] none)
    ∧ ("Unnamed" : String) ≠ "" :=
  ⟨by rfl, by decide⟩

/-- Claim C1, amended: for a tree whose `className` and property names
are attribute-safe and whose emitted source contains no CDATA
terminator, decode of encode succeeds and returns a tree that matches
the source tree up to the documented fallbacks: name with the `Unnamed`
fallback for empty names, className with the `Folder` fallback for empty
classNames, the same source wherever the encoder emits one (nonempty
source on a script-like node), and pairwise-corresponding children in
order at every depth. -/
theorem claim_C1_amended (rng : Nat → Nat) (t : RobloxAsset)
    (hsafe : safeTree t = true) :
    ∃ u, parseRbxmx (buildRbxmx rng t) = .ok u ∧ rtOK t u = true :=
  ⟨(extractItem (encDom rng t 0 0) 0).1, parseRbxmx_build rng t hsafe,
    rt_extract rng t 0 0 0⟩

/-- Witness for the amended claim C1 at a concrete script node. -/
theorem claim_C1_witness :
    safeTree (.mk "id1" "Main" "Script" (some "print(1)") [] none) = true
    ∧ ∃ u, parseRbxmx (buildRbxmx (fun _ => 0)
          (.mk "id1" "Main" "Script" (some "print(1)") [] none)) = .ok u
        ∧ rtOK (.mk "id1" "Main" "Script" (some "print(1)") [] none) u = true :=
  ⟨by decide, claim_C1_amended (fun _ => 0) _ (by decide)⟩

set_option maxRecDepth 40000 in
/-- Counterexample to claim C5 as stated: the encoder interpolates
`className` into attribute position unescaped, so a className containing
a double quote yields a document that is not well-formed XML (a
conforming parser rejects it). -/
theorem claim_C5_counterexample :
    (parseXmlDoc (buildRbxmx (fun _ => 0)
        (.mk "i" "n" "\"" none [] none))).isSome = false := by
  rfl

/-- Claim C5, amended: for every tree whose `className` and property
names are attribute-safe and whose emitted source contains no CDATA
terminator, the encoder's output is well-formed XML: a conforming parser
accepts the whole document. -/
theorem claim_C5_amended (rng : Nat → Nat) (t : RobloxAsset)
    (hsafe : safeTree t = true) :
    (parseXmlDoc (buildRbxmx rng t)).isSome = true := by
  rw [buildRbxmx_dom rng t hsafe]
  rfl

/-- Witness for the amended claim C5 at a concrete tree. -/
theorem claim_C5_witness :
    safeTree (.mk "id2" "Part" "Folder" none [] none) = true ∧
    (parseXmlDoc (buildRbxmx (fun _ => 0)
        (.mk "id2" "Part" "Folder" none [] none))).isSome = true :=
  ⟨by decide, claim_C5_amended (fun _ => 0) _ (by decide)⟩

theorem itemRefsList_append (xs ys : List XNode) :
    itemRefsList (xs ++ ys) = itemRefsList xs ++ itemRefsList ys := by
  induction xs with
  | nil => simp [itemRefsList]
  | cons x xs ih => simp [itemRefsList, ih]

theorem itemRefs_encRoot (rng : Nat → Nat) (t : RobloxAsset) :
    itemRefs (encRoot rng t) = itemRefs (encDom rng t 0 0) := by
  obtain ⟨as, ks, he⟩ := encDom_elem rng t 0 0
  simp [encRoot, itemRefs, itemRefsList, he]

theorem rbx0 : ("RBX" ++ Nat.repr 0) = "RBX0" := by decide

theorem refs_child (d k : Nat) :
    itemRefs (encDom (fun _ => 0) (.mk "c" "Child" "Folder" none [] none) d k)
      = ["RBX0"] := by
  simp [encDom, itemRefs, itemRefsList, getAttr, sepL, srcDoms, propsDoms,
    txtOpt, rbx0]

theorem refs_kids :
    ∀ n k, itemRefsList (encDomKids (fun _ => 0)
        (List.replicate n (.mk "c" "Child" "Folder" none [] none)) 0 k)
      = List.replicate n "RBX0" := by
  intro n
  induction n with
  | zero => intro k; rfl
  | succ m ih =>
      intro k
      rw [List.replicate_succ]
      simp only [encDomKids, itemRefsList, refs_child, ih]
      simp [sepL, itemRefs, List.replicate_succ, rbx0]

theorem refs_root (n : Nat) :
    itemRefs (encDom (fun _ => 0) (flatTree n) 0 0)
      = "RBX0" :: List.replicate n "RBX0" := by
  simp only [flatTree, encDom]
  simp [itemRefs, itemRefsList, itemRefsList_append, refs_kids, sepL, txtOpt,
    getAttr, srcDoms, propsDoms, rbx0]

theorem numNodes_flat (n : Nat) : numNodes (flatTree n) = n + 1 := by
  have h : ∀ m, numNodesList
      (List.replicate m (.mk "c" "Child" "Folder" none [] none)) = m := by
    intro m
    induction m with
    | zero => rfl
    | succ mm ih =>
        rw [List.replicate_succ]
        simp only [numNodesList, ih]
        rw [show numNodes (.mk "c" "Child" "Folder" none [] none) = 1 from rfl]
        omega
  simp only [flatTree, numNodes, h]
  omega

theorem safeTree_flat (n : Nat) : safeTree (flatTree n) = true := by
  have hc : safeTree (.mk "c" "Child" "Folder" none [] none) = true := by decide
  have h : ∀ m, safeTreeList
      (List.replicate m (.mk "c" "Child" "Folder" none [] none)) = true := by
    intro m
    induction m with
    | zero => rfl
    | succ mm ih =>
        rw [List.replicate_succ]
        simp [safeTreeList, hc, ih]
  simp only [flatTree, safeTree, h]
  decide

/-- Claim C2 refuted (code bug): the referent generator draws each value
independently from `Math.floor(Math.random() * 100000000)`, which carries
no per-document uniqueness guarantee.  Under the random stream that the
platform is free to produce in which every draw returns `0`, the encoded
document of a 1001-node tree contains 1001 referent attribute values that
are all the string `RBX0`: the document's referent list has full length
but is not duplicate-free, refuting syntactic distinctness. -/
theorem claim_C2 :
    1000 ≤ numNodes (flatTree 1000)
    ∧ ∃ D, parseXmlDoc (buildRbxmx (fun _ => 0) (flatTree 1000)) = some D
      ∧ (itemRefs D).length = numNodes (flatTree 1000)
      ∧ ¬ (itemRefs D).Nodup := by
  refine ⟨by rw [numNodes_flat]; omega, encRoot (fun _ => 0) (flatTree 1000),
    buildRbxmx_dom (fun _ => 0) (flatTree 1000) (safeTree_flat 1000), ?_, ?_⟩
  · rw [itemRefs_encRoot, refs_root, numNodes_flat, List.length_cons,
      List.length_replicate]
  · rw [itemRefs_encRoot, refs_root]
    intro hnd
    rw [List.nodup_cons] at hnd
    exact hnd.1 (List.mem_replicate.mpr ⟨by omega, rfl⟩)

end Rbxmx
